import Mathlib

set_option maxHeartbeats 1000000
set_option maxRecDepth 8000

/- Shallow embedding of the MemoryGraph document-processing core
   (utils/chunker.js, utils/fileParser/cleanText.js, utils/fileParser/pdfParser.js,
   services/memoryGraph.js).  Strings are modelled as `List Char`; JavaScript
   numbers as `Int`/`Nat` where the source only does integer arithmetic and as
   `Rat` where it divides. -/

/-- JavaScript whitespace (the `\s` class, `trim`), restricted to the ASCII
range used by the repository's data; JS additionally treats rare Unicode
space characters as whitespace. -/
def jsIsWs (c : Char) : Bool :=
  c = ' ' || c = '\t' || c = '\n' || c = '\r' || c = '\x0b' || c = '\x0c'

/-- `String.prototype.trim`: drop whitespace from both ends. -/
def jsTrim (l : List Char) : List Char :=
  ((l.dropWhile jsIsWs).reverse.dropWhile jsIsWs).reverse

/-- `String.prototype.substring(a, b)`: clamp both indices into `[0, length]`,
swap if out of order, return the slice. -/
def jsSubstring (l : List Char) (a b : Int) : List Char :=
  let n : Int := l.length
  let a2 := min (max a 0) n
  let b2 := min (max b 0) n
  let lo := min a2 b2
  let hi := max a2 b2
  (l.drop lo.toNat).take (hi - lo).toNat

/-- A chunk as pushed by `Chunker.createChunks` (utils/chunker.js).  The source
field `end` is a Lean keyword and is rendered `stop`. -/
structure Chunk where
  content : List Char
  start : Int
  stop : Int
  index : Nat
deriving DecidableEq

/-- The `while (start < text.length)` loop of `createChunks`
(utils/chunker.js lines 27-50), with explicit fuel standing for the
iteration count (the JS loop is unbounded; every theorem below either holds
for all fuel or supplies fuel that provably outlasts the loop).  Each
iteration slices `[start, min(start+chunkSize, len))`, trims, pushes the
chunk when the trimmed content is longer than 10 characters, advances
`start` by `chunkSize - overlap`, and breaks once more than 1000 chunks
are accumulated. -/
def chunkLoop (text : List Char) (chunkSize overlap : Int) :
    Nat → Int → Nat → List Chunk → List Chunk
  | 0, _, _, chunks => chunks
  | fuel+1, start, chunkIndex, chunks =>
    if start < (text.length : Int) then
      let e := min (start + chunkSize) (text.length : Int)
      let content := jsTrim (jsSubstring text start e)
      if content.length > 10 then
        let chunks2 := chunks ++ [⟨content, start, e, chunkIndex⟩]
        if chunks2.length > 1000 then chunks2
        else chunkLoop text chunkSize overlap fuel (start + (chunkSize - overlap))
          (chunkIndex + 1) chunks2
      else
        if chunks.length > 1000 then chunks
        else chunkLoop text chunkSize overlap fuel (start + (chunkSize - overlap))
          chunkIndex chunks
    else chunks

/-- `Chunker.createChunks(text, chunkSize = 500, overlap = 50)`
(utils/chunker.js lines 12-54): empty text yields no chunks; text longer
than 1,000,000 characters is truncated first; then the slicing loop runs.
The fuel `length + 1002` outlasts the loop whenever the loop terminates in
JS (at most `length` advancing iterations when the step is positive, and at
most 1002 further iterations before the 1000-chunk break otherwise). -/
def createChunks (text : List Char) (chunkSize : Int := 500) (overlap : Int := 50) :
    List Chunk :=
  if text.length = 0 then []
  else
    let t := if text.length > 1000000 then text.take 1000000 else text
    chunkLoop t chunkSize overlap (t.length + 1002) 0 0 []

/-- `index` fields of a chunk list are consecutive starting at `k`. -/
def indexedFrom : Nat → List Chunk → Prop
  | _, [] => True
  | k, c :: rest => c.index = k ∧ indexedFrom (k + 1) rest

lemma indexedFrom_append {l : List Chunk} {c : Chunk} :
    ∀ {k : Nat}, indexedFrom k l → c.index = k + l.length →
      indexedFrom k (l ++ [c]) := by
  induction l with
  | nil => intro k _ hc; exact ⟨by simpa using hc, trivial⟩
  | cons a rest ih =>
    intro k h hc
    exact ⟨h.1, ih h.2 (by simpa [Nat.add_comm, Nat.add_left_comm] using hc)⟩

lemma pairwise_append_one {l : List Chunk} {c : Chunk}
    (h : List.Pairwise (fun a b => a.start < b.start) l)
    (h2 : ∀ x ∈ l, x.start < c.start) :
    List.Pairwise (fun a b => a.start < b.start) (l ++ [c]) := by
  refine List.pairwise_append.mpr ⟨h, List.pairwise_singleton _ _, ?_⟩
  intro x hx y hy
  rcases List.mem_singleton.mp hy with rfl
  exact h2 x hx

/-- Main loop invariant for `createChunks` under valid parameters:
indices stay consecutive from 0, starts stay strictly increasing, and every
chunk satisfies `start < stop ≤ length`. -/
lemma chunkLoop_inv (t : List Char) (cs ov : Int)
    (hcs : 0 < cs) (hstep : 0 < cs - ov) :
    ∀ (fuel : Nat) (start : Int) (acc : List Chunk),
      indexedFrom 0 acc →
      List.Pairwise (fun a b => a.start < b.start) acc →
      (∀ c ∈ acc, c.start < start) →
      (∀ c ∈ acc, c.start < c.stop ∧ c.stop ≤ (t.length : Int)) →
      indexedFrom 0 (chunkLoop t cs ov fuel start acc.length acc) ∧
      List.Pairwise (fun a b => a.start < b.start)
        (chunkLoop t cs ov fuel start acc.length acc) ∧
      ∀ c ∈ chunkLoop t cs ov fuel start acc.length acc,
        c.start < c.stop ∧ c.stop ≤ (t.length : Int) := by
  intro fuel
  induction fuel with
  | zero => intro start acc h1 h2 _ h4; exact ⟨h1, h2, h4⟩
  | succ f ih =>
    intro start acc h1 h2 h3 h4
    rw [chunkLoop]
    by_cases hlt : start < (t.length : Int)
    · simp only [hlt, if_true]
      set e := min (start + cs) (t.length : Int) with he
      have hse : start < e := by
        apply lt_min
        · omega
        · exact hlt
      have het : e ≤ (t.length : Int) := min_le_right _ _
      set content := jsTrim (jsSubstring t start e) with hc
      by_cases hlen : content.length > 10
      · simp only [hlen, if_true]
        set c0 : Chunk := ⟨content, start, e, acc.length⟩ with hc0
        have h1' : indexedFrom 0 (acc ++ [c0]) :=
          indexedFrom_append h1 (by simp [hc0])
        have h2' : List.Pairwise (fun a b => a.start < b.start) (acc ++ [c0]) :=
          pairwise_append_one h2 (by intro x hx; simpa [hc0] using h3 x hx)
        have h4' : ∀ c ∈ acc ++ [c0], c.start < c.stop ∧ c.stop ≤ (t.length : Int) := by
          intro c hcmem
          rcases List.mem_append.mp hcmem with hm | hm
          · exact h4 c hm
          · rcases List.mem_singleton.mp hm with rfl
            exact ⟨hse, het⟩
        by_cases hbig : (acc ++ [c0]).length > 1000
        · simp only [hbig, if_true]
          exact ⟨h1', h2', h4'⟩
        · simp only [hbig, if_false]
          have h3' : ∀ c ∈ acc ++ [c0], c.start < start + (cs - ov) := by
            intro c hcmem
            rcases List.mem_append.mp hcmem with hm | hm
            · have := h3 c hm; omega
            · rcases List.mem_singleton.mp hm with rfl
              simp only [hc0]; omega
          have hacc : (acc ++ [c0]).length = acc.length + 1 := by simp
          have := ih (start + (cs - ov)) (acc ++ [c0]) h1' h2' h3' h4'
          rw [hacc] at this
          exact this
      · simp only [hlen, if_false]
        by_cases hbig : acc.length > 1000
        · simp only [hbig, if_true]
          exact ⟨h1, h2, h4⟩
        · simp only [hbig, if_false]
          have h3' : ∀ c ∈ acc, c.start < start + (cs - ov) := by
            intro c hcmem; have := h3 c hcmem; omega
          exact ih (start + (cs - ov)) acc h1 h2 h3' h4
    · simp only [hlt, if_false]
      exact ⟨h1, h2, h4⟩

/-- Claim C1: for every text `t` and every `chunkSize > overlap ≥ 0`,
`createChunks t chunkSize overlap` returns chunks whose `index` fields are
exactly `0..N-1` in order, whose `start` offsets are strictly increasing, and
where every chunk satisfies `start < stop ≤ length t`. -/
theorem C1_createChunks_invariants (t : List Char) (cs ov : Int)
    (hov : 0 ≤ ov) (hlt : ov < cs) :
    indexedFrom 0 (createChunks t cs ov) ∧
    List.Pairwise (fun a b => a.start < b.start) (createChunks t cs ov) ∧
    ∀ c ∈ createChunks t cs ov, c.start < c.stop ∧ c.stop ≤ (t.length : Int) := by
  unfold createChunks
  by_cases h0 : t.length = 0
  · simp only [h0, if_true]
    exact ⟨trivial, List.Pairwise.nil, by intro c hc; cases hc⟩
  · simp only [h0, if_false]
    set t2 := if t.length > 1000000 then t.take 1000000 else t with ht2
    have hlen : t2.length ≤ t.length := by
      rw [ht2]; split
      · simp
      · exact le_rfl
    have hcast : (t2.length : Int) ≤ (t.length : Int) := by exact_mod_cast hlen
    have := chunkLoop_inv t2 cs ov (by omega) (by omega)
      (t2.length + 1002) 0 []
      trivial List.Pairwise.nil (by intro c hc; cases hc) (by intro c hc; cases hc)
    refine ⟨this.1, this.2.1, ?_⟩
    intro c hc
    have h := this.2.2 c hc
    exact ⟨h.1, le_trans h.2 hcast⟩

/-- Witness for C1 at a concrete input. -/
theorem C1_witness :
    (0 : Int) ≤ 2 ∧ (2 : Int) < 12 ∧
    (indexedFrom 0 (createChunks "hello world, plenty of text here".data 12 2) ∧
     List.Pairwise (fun a b => a.start < b.start)
       (createChunks "hello world, plenty of text here".data 12 2) ∧
     ∀ c ∈ createChunks "hello world, plenty of text here".data 12 2,
       c.start < c.stop ∧ c.stop ≤ ("hello world, plenty of text here".data.length : Int)) :=
  ⟨by norm_num, by norm_num,
   C1_createChunks_invariants "hello world, plenty of text here".data 12 2
     (by norm_num) (by norm_num)⟩

lemma dropWhile_eq_self_of_no_ws (l : List Char) (h : ∀ c ∈ l, jsIsWs c = false) :
    l.dropWhile jsIsWs = l := by
  cases l with
  | nil => rfl
  | cons a rest =>
    rw [List.dropWhile_cons]
    simp [h a (List.mem_cons_self a rest)]

lemma jsTrim_of_no_ws (l : List Char) (h : ∀ c ∈ l, jsIsWs c = false) :
    jsTrim l = l := by
  unfold jsTrim
  rw [dropWhile_eq_self_of_no_ws l h,
    dropWhile_eq_self_of_no_ws _ (by intro c hc; exact h c (List.mem_reverse.mp hc)),
    List.reverse_reverse]

lemma jsSubstring_eq (l : List Char) (a b : Int) (h0 : 0 ≤ a) (hab : a ≤ b)
    (hbl : b ≤ (l.length : Int)) :
    jsSubstring l a b = (l.drop a.toNat).take (b - a).toNat := by
  unfold jsSubstring
  have h1 : max a 0 = a := by omega
  have h2 : max b 0 = b := by omega
  have h3 : min a (l.length : Int) = a := by omega
  have h4 : min b (l.length : Int) = b := by omega
  simp only [h1, h2, h3, h4]
  have h5 : min a b = a := by omega
  have h6 : max a b = b := by omega
  simp only [h5, h6]

/-- One unfolding of the loop at positive fuel. -/
lemma chunkLoop_succ (t : List Char) (cs ov : Int) (f : Nat) (start : Int)
    (k : Nat) (acc : List Chunk) :
    chunkLoop t cs ov (f + 1) start k acc =
      if start < (t.length : Int) then
        if (jsTrim (jsSubstring t start (min (start + cs) (t.length : Int)))).length > 10 then
          if (acc ++ [Chunk.mk (jsTrim (jsSubstring t start (min (start + cs) (t.length : Int))))
              start (min (start + cs) (t.length : Int)) k]).length > 1000 then
            acc ++ [Chunk.mk (jsTrim (jsSubstring t start (min (start + cs) (t.length : Int))))
              start (min (start + cs) (t.length : Int)) k]
          else chunkLoop t cs ov f (start + (cs - ov)) (k + 1)
            (acc ++ [Chunk.mk (jsTrim (jsSubstring t start (min (start + cs) (t.length : Int))))
              start (min (start + cs) (t.length : Int)) k])
        else
          if acc.length > 1000 then acc
          else chunkLoop t cs ov f (start + (cs - ov)) k acc
      else acc := rfl

lemma createChunks_eq_loop (t : List Char) (cs ov : Int) (h0 : t.length ≠ 0)
    (h1 : ¬ t.length > 1000000) :
    createChunks t cs ov = chunkLoop t cs ov (t.length + 1002) 0 0 [] := by
  unfold createChunks
  rw [if_neg h0]
  simp only [h1, if_false]

/-- Claim C2: with `chunkSize = 500` and `overlap = 50`, a 1200-character
input with no short or whitespace-only regions (formalised: containing no
whitespace at all, so every slice survives the trim/length filter) yields
exactly 3 chunks whose start offsets are 0, 450 and 900. -/
theorem C2_three_chunks_1200 (t : List Char) (ht : t.length = 1200)
    (hws : ∀ c ∈ t, jsIsWs c = false) :
    (createChunks t 500 50).map Chunk.start = [0, 450, 900] := by
  have hcast : (t.length : Int) = 1200 := by omega
  have hlen : ∀ a b : Int, 0 ≤ a → a ≤ b → b ≤ 1200 →
      (jsTrim (jsSubstring t a b)).length = (b - a).toNat := by
    intro a b h0 hab hb
    rw [jsSubstring_eq t a b h0 hab (by omega)]
    rw [jsTrim_of_no_ws _ (by
      intro c hc
      exact hws c (List.mem_of_mem_drop (List.mem_of_mem_take hc)))]
    rw [List.length_take, List.length_drop, ht]
    omega
  rw [createChunks_eq_loop t 500 50 (by omega) (by omega), ht]
  -- iteration 1: start = 0
  rw [show (1200 : Nat) + 1002 = 2201 + 1 from rfl, chunkLoop_succ]
  rw [if_pos (show (0 : Int) < (t.length : Int) by omega)]
  rw [show min ((0 : Int) + 500) (t.length : Int) = 500 by omega]
  rw [if_pos (show (jsTrim (jsSubstring t 0 500)).length > 10 from by
    rw [hlen 0 500 (by norm_num) (by norm_num) (by norm_num)]; omega)]
  set c0 : Chunk := Chunk.mk (jsTrim (jsSubstring t 0 500)) 0 500 0 with hc0
  rw [if_neg (show ¬ (([] : List Chunk) ++ [c0]).length > 1000 from by simp)]
  rw [show (0 : Int) + (500 - 50) = 450 from by norm_num]
  simp only [List.nil_append, Nat.zero_add]
  -- iteration 2: start = 450
  rw [show (2201 : Nat) = 2200 + 1 from rfl, chunkLoop_succ]
  rw [if_pos (show (450 : Int) < (t.length : Int) by omega)]
  rw [show min ((450 : Int) + 500) (t.length : Int) = 950 by omega]
  rw [if_pos (show (jsTrim (jsSubstring t 450 950)).length > 10 from by
    rw [hlen 450 950 (by norm_num) (by norm_num) (by norm_num)]; omega)]
  set c1 : Chunk := Chunk.mk (jsTrim (jsSubstring t 450 950)) 450 950 1 with hc1
  rw [if_neg (show ¬ ([c0] ++ [c1]).length > 1000 from by simp)]
  rw [show (450 : Int) + (500 - 50) = 900 from by norm_num]
  rw [show (1 : Nat) + 1 = 2 from rfl]
  simp only [List.singleton_append]
  -- iteration 3: start = 900
  rw [show (2200 : Nat) = 2199 + 1 from rfl, chunkLoop_succ]
  rw [if_pos (show (900 : Int) < (t.length : Int) by omega)]
  rw [show min ((900 : Int) + 500) (t.length : Int) = 1200 by omega]
  rw [if_pos (show (jsTrim (jsSubstring t 900 1200)).length > 10 from by
    rw [hlen 900 1200 (by norm_num) (by norm_num) (by norm_num)]; omega)]
  set c2 : Chunk := Chunk.mk (jsTrim (jsSubstring t 900 1200)) 900 1200 2 with hc2
  rw [if_neg (show ¬ ([c0, c1] ++ [c2]).length > 1000 from by simp)]
  rw [show (900 : Int) + (500 - 50) = 1350 from by norm_num]
  -- iteration 4: start = 1350 ≥ 1200, loop exits
  rw [show (2199 : Nat) = 2198 + 1 from rfl, chunkLoop_succ]
  rw [if_neg (show ¬ ((1350 : Int) < (t.length : Int)) by omega)]
  simp [hc0, hc1, hc2]

/-- Witness for C2 at a concrete 1200-character input. -/
theorem C2_witness :
    (List.replicate 1200 'a').length = 1200 ∧
    (∀ c ∈ List.replicate 1200 'a', jsIsWs c = false) ∧
    (createChunks (List.replicate 1200 'a') 500 50).map Chunk.start = [0, 450, 900] :=
  ⟨by simp,
   by intro c hc; rw [List.eq_of_mem_replicate hc]; decide,
   C2_three_chunks_1200 (List.replicate 1200 'a') (by simp)
     (by intro c hc; rw [List.eq_of_mem_replicate hc]; decide)⟩

lemma chunkLoop_length_le (t : List Char) (cs ov : Int) :
    ∀ (fuel : Nat) (start : Int) (k : Nat) (acc : List Chunk),
      acc.length ≤ 1000 →
      (chunkLoop t cs ov fuel start k acc).length ≤ 1001 := by
  intro fuel
  induction fuel with
  | zero => intro start k acc h; rw [chunkLoop]; omega
  | succ f ih =>
    intro start k acc h
    rw [chunkLoop]
    by_cases hlt : start < (t.length : Int)
    · simp only [hlt, if_true]
      set e := min (start + cs) (t.length : Int) with he
      set content := jsTrim (jsSubstring t start e) with hcon
      by_cases hlen : content.length > 10
      · simp only [hlen, if_true]
        set c0 : Chunk := ⟨content, start, e, k⟩ with hc0
        by_cases hbig : (acc ++ [c0]).length > 1000
        · simp only [hbig, if_true]
          simp only [List.length_append, List.length_cons, List.length_nil]
          omega
        · simp only [hbig, if_false]
          exact ih (start + (cs - ov)) (k + 1) (acc ++ [c0]) (by
            simp only [List.length_append, List.length_cons, List.length_nil] at hbig ⊢
            omega)
      · simp only [hlen, if_false]
        by_cases hbig : acc.length > 1000
        · simp only [hbig, if_true]; omega
        · simp only [hbig, if_false]
          exact ih (start + (cs - ov)) k acc h
    · simp only [hlt, if_false]; omega

/-- Amended C3 (the cap is 1001, not 1000): for every text and parameters,
`createChunks` returns at most 1001 chunks — the `chunks.length > 1000`
break runs after the conditional push, so a 1001st chunk can be emitted
before the loop stops, and never a 1002nd. -/
theorem C3_amended_cap_1001 (t : List Char) (cs ov : Int) :
    (createChunks t cs ov).length ≤ 1001 := by
  unfold createChunks
  by_cases h0 : t.length = 0
  · simp [h0]
  · rw [if_neg h0]
    exact chunkLoop_length_le _ cs ov _ 0 0 [] (by simp)

lemma replicate_a_slice (p : Nat) (hp : p ≤ 1000) :
    jsTrim (jsSubstring (List.replicate 11011 'a') ((11 * p : Nat) : Int)
      (((11 * p : Nat) : Int) + 11)) = List.replicate 11 'a' := by
  rw [jsSubstring_eq]
  · have h1 : (((11 * p : Nat) : Int)).toNat = 11 * p := by omega
    have h2 : ((((11 * p : Nat) : Int) + 11) - ((11 * p : Nat) : Int)).toNat = 11 := by omega
    rw [h1, h2, List.drop_replicate, List.take_replicate]
    rw [show min 11 (11011 - 11 * p) = 11 from by omega]
    apply jsTrim_of_no_ws
    intro c hc
    rw [List.eq_of_mem_replicate hc]; decide
  · omega
  · omega
  · simp only [List.length_replicate]; omega

/-- On an 11011-character whitespace-free text with `chunkSize = 11` and
`overlap = 0`, the loop pushes a chunk on every iteration until the break,
returning exactly 1001 chunks. -/
lemma chunkLoop_fill :
    ∀ (q : Nat) (fuel : Nat) (k : Nat) (acc : List Chunk) (start : Int),
      q ≤ 1000 → acc.length = 1000 - q → q < fuel →
      start = ((11 * (1000 - q) : Nat) : Int) →
      (chunkLoop (List.replicate 11011 'a') 11 0 fuel start k acc).length = 1001 := by
  intro q
  induction q with
  | zero =>
    intro fuel k acc start hq hacc hfuel hstart
    cases fuel with
    | zero => omega
    | succ f =>
      rw [chunkLoop]
      have hlt : start < ((List.replicate 11011 'a').length : Int) := by
        simp only [List.length_replicate]; omega
      simp only [hlt, if_true]
      have hmin : min (start + 11) (((List.replicate 11011 'a').length : Int)) = start + 11 := by
        simp only [List.length_replicate]; omega
      rw [hmin, hstart]
      rw [replicate_a_slice (1000 - 0) (by omega)]
      rw [if_pos (show (List.replicate 11 'a').length > 10 from by simp)]
      rw [if_pos (show (acc ++ [Chunk.mk (List.replicate 11 'a') ((11 * (1000 - 0) : Nat) : Int)
        (((11 * (1000 - 0) : Nat) : Int) + 11) k]).length > 1000 from by
          simp only [List.length_append, List.length_cons, List.length_nil]; omega)]
      simp only [List.length_append, List.length_cons, List.length_nil]
      omega
  | succ n ih =>
    intro fuel k acc start hq hacc hfuel hstart
    cases fuel with
    | zero => omega
    | succ f =>
      rw [chunkLoop]
      have hlt : start < ((List.replicate 11011 'a').length : Int) := by
        simp only [List.length_replicate]; omega
      simp only [hlt, if_true]
      have hmin : min (start + 11) (((List.replicate 11011 'a').length : Int)) = start + 11 := by
        simp only [List.length_replicate]; omega
      rw [hmin, hstart]
      rw [replicate_a_slice (1000 - (n + 1)) (by omega)]
      rw [if_pos (show (List.replicate 11 'a').length > 10 from by simp)]
      rw [if_neg (show ¬ (acc ++ [Chunk.mk (List.replicate 11 'a')
        ((11 * (1000 - (n + 1)) : Nat) : Int)
        (((11 * (1000 - (n + 1)) : Nat) : Int) + 11) k]).length > 1000 from by
          simp only [List.length_append, List.length_cons, List.length_nil]; omega)]
      have := ih f (k + 1) (acc ++ [Chunk.mk (List.replicate 11 'a')
        ((11 * (1000 - (n + 1)) : Nat) : Int)
        (((11 * (1000 - (n + 1)) : Nat) : Int) + 11) k])
        (((11 * (1000 - (n + 1)) : Nat) : Int) + (11 - 0))
        (by omega)
        (by simp only [List.length_append, List.length_cons, List.length_nil]; omega)
        (by omega)
        (by push_cast; omega)
      exact this

/-- Counterexample to claim C3 as stated: on a concrete 11011-character
input (with `chunkSize = 11`, `overlap = 0`), `createChunks` returns 1001
chunks, i.e. more than the 1000 the claim allows — the break fires only
after the 1001st push. -/
theorem C3_counterexample :
    ¬ ((createChunks (List.replicate 11011 'a') 11 0).length ≤ 1000) := by
  have h := chunkLoop_fill 1000 ((List.replicate 11011 'a').length + 1002) 0 [] 0
    (by omega) (by simp) (by omega) (by norm_num)
  rw [createChunks_eq_loop (List.replicate 11011 'a') 11 0
    (by rw [List.length_replicate]; omega) (by rw [List.length_replicate]; omega)]
  omega

/- ===== TextCleaner (utils/fileParser/cleanText.js) =====
   Pure model of `clean` and its phases.  The source wraps `clean` in a
   try/catch returning the input unchanged on internal errors; the phases
   below are total functions, so that branch has no counterpart here. -/

def isAsciiDigit (c : Char) : Bool := '0' ≤ c && c ≤ '9'

def isAsciiUpper (c : Char) : Bool := 'A' ≤ c && c ≤ 'Z'

def isAsciiLower (c : Char) : Bool := 'a' ≤ c && c ≤ 'z'

def isAsciiLetter (c : Char) : Bool := isAsciiUpper c || isAsciiLower c

def isAsciiAlnum (c : Char) : Bool := isAsciiLetter c || isAsciiDigit c

/-- The `\w` class: letters, digits, underscore. -/
def isWordChar (c : Char) : Bool := isAsciiAlnum c || c = '_'

/-- `toLowerCase`, on the ASCII range the source's patterns use. -/
def lowerC (c : Char) : Char :=
  if isAsciiUpper c then Char.ofNat (c.toNat + 32) else c

def lowerL (l : List Char) : List Char := l.map lowerC

/-- Case-sensitive prefix test (pattern first). -/
def listStartsWith : List Char → List Char → Bool
  | [], _ => true
  | _ :: _, [] => false
  | p :: ps, c :: cs => p == c && listStartsWith ps cs

/-- Case-insensitive prefix test (pattern first). -/
def startsWithCI : List Char → List Char → Bool
  | [], _ => true
  | _ :: _, [] => false
  | p :: ps, c :: cs => lowerC p == lowerC c && startsWithCI ps cs

/-- `String.prototype.includes` / an unanchored regex `test` for a literal. -/
def containsSub : List Char → List Char → Bool
  | [], pat => pat.isEmpty
  | l@(_ :: rest), pat => listStartsWith pat l || containsSub rest pat

/-- Characters removed by `removeNullCharacters` (the `\0`, control and
zero-width classes of its three global replaces, combined). -/
def isStrippedChar (c : Char) : Bool :=
  c.toNat ≤ 0x08 || c.toNat = 0x0B || c.toNat = 0x0C ||
  (0x0E ≤ c.toNat && c.toNat ≤ 0x1F) || c.toNat = 0x7F ||
  (0x200B ≤ c.toNat && c.toNat ≤ 0x200D) || c.toNat = 0xFEFF

def removeNullCharacters (l : List Char) : List Char :=
  l.filter (fun c => !isStrippedChar c)

/-- `\r\n` → `\n` (global). -/
def crlfToNl : List Char → List Char
  | [] => []
  | [c] => [c]
  | c :: d :: rest =>
    if c = '\r' then
      if d = '\n' then '\n' :: crlfToNl rest
      else '\r' :: crlfToNl (d :: rest)
    else c :: crlfToNl (d :: rest)

/-- `\r` → `\n` (global). -/
def crToNl (l : List Char) : List Char :=
  l.map (fun c => if c = '\r' then '\n' else c)

/-- `\t` → four spaces (global). -/
def expandTabs : List Char → List Char
  | [] => []
  | c :: rest =>
    if c = '\t' then ' ' :: ' ' :: ' ' :: ' ' :: expandTabs rest
    else c :: expandTabs rest

def isSpaceTab (c : Char) : Bool := c = ' ' || c = '\t'

/-- `[ \t]+` → `' '` (global): each maximal space/tab run becomes one space.
The flag records whether the scanner is inside a run. -/
def collapseSpaceTab : Bool → List Char → List Char
  | _, [] => []
  | inRun, c :: rest =>
    if isSpaceTab c then
      if inRun then collapseSpaceTab true rest
      else ' ' :: collapseSpaceTab true rest
    else c :: collapseSpaceTab false rest

/-- `\n[ \t]+\n` → `"\n\n"` (global; scanning resumes after each match, so
the closing newline of a match can open the next one only when the run
between them is empty).  State `some pend` means a `'\n'` and the space/tab
run `pend` have been consumed but not yet emitted. -/
def nlWsNlAux : Option (List Char) → List Char → List Char
  | none, [] => []
  | none, c :: rest =>
    if c = '\n' then nlWsNlAux (some []) rest
    else c :: nlWsNlAux none rest
  | some pend, [] => '\n' :: pend
  | some pend, c :: rest =>
    if isSpaceTab c then nlWsNlAux (some (pend ++ [c])) rest
    else if c = '\n' then
      if pend.isEmpty then '\n' :: nlWsNlAux (some []) rest
      else '\n' :: '\n' :: nlWsNlAux none rest
    else '\n' :: pend ++ c :: nlWsNlAux none rest

def collapseNlWsNl (l : List Char) : List Char := nlWsNlAux none l

/-- `\n{3,}` → `"\n\n"`: cap every maximal newline run at two. -/
def capNlAux (pend : Nat) : List Char → List Char
  | [] => List.replicate (if pend ≥ 3 then 2 else pend) '\n'
  | c :: rest =>
    if c = '\n' then capNlAux (pend + 1) rest
    else List.replicate (if pend ≥ 3 then 2 else pend) '\n' ++ c :: capNlAux 0 rest

def capNlRuns (l : List Char) : List Char := capNlAux 0 l

def normalizeWhitespace (l : List Char) : List Char :=
  jsTrim (capNlRuns (collapseNlWsNl (collapseSpaceTab false
    (expandTabs (crToNl (crlfToNl l))))))

/-- `split('\n')`. -/
def splitLines : List Char → List (List Char)
  | [] => [[]]
  | c :: rest =>
    if c = '\n' then [] :: splitLines rest
    else
      match splitLines rest with
      | [] => [[c]]
      | line :: more => (c :: line) :: more

/-- `join('\n')`. -/
def joinLines : List (List Char) → List Char
  | [] => []
  | [l] => l
  | l :: rest => l ++ '\n' :: joinLines rest

/-- `^\s*\d+\s*$` on one line. -/
def matchWsNumWs (l : List Char) : Bool :=
  match l.dropWhile jsIsWs with
  | [] => false
  | c :: rest =>
    isAsciiDigit c && ((c :: rest).dropWhile isAsciiDigit).all jsIsWs

/-- `\s+` (at least one). -/
def skipWs1 (l : List Char) : Option (List Char) :=
  match l with
  | c :: rest => if jsIsWs c then some (rest.dropWhile jsIsWs) else none
  | [] => none

/-- `\d+` (at least one). -/
def skipDigits1 (l : List Char) : Option (List Char) :=
  match l with
  | c :: rest => if isAsciiDigit c then some (rest.dropWhile isAsciiDigit) else none
  | [] => none

/-- `^Page\s+\d+\s+of\s+\d+$` (case-insensitive) on one line. -/
def matchPageNofM (l : List Char) : Bool :=
  if startsWithCI "Page".data l then
    match skipWs1 (l.drop 4) with
    | none => false
    | some r1 =>
      match skipDigits1 r1 with
      | none => false
      | some r2 =>
        match skipWs1 r2 with
        | none => false
        | some r3 =>
          if startsWithCI "of".data r3 then
            match skipWs1 (r3.drop 2) with
            | none => false
            | some r4 =>
              match skipDigits1 r4 with
              | none => false
              | some r5 => r5.isEmpty
          else false
  else false

def eqCI (a b : List Char) : Bool := lowerL a == lowerL b

/-- `^\d{1,2}\/\d{1,2}\/\d{4}$` on one line. -/
def matchDateLine (l : List Char) : Bool :=
  let d1 := l.takeWhile isAsciiDigit
  let r1 := l.dropWhile isAsciiDigit
  (d1.length = 1 || d1.length = 2) &&
  (match r1 with
   | '/' :: r2 =>
     let d2 := r2.takeWhile isAsciiDigit
     let r3 := r2.dropWhile isAsciiDigit
     (d2.length = 1 || d2.length = 2) &&
     (match r3 with
      | '/' :: r4 =>
        let d3 := r4.takeWhile isAsciiDigit
        let r5 := r4.dropWhile isAsciiDigit
        d3.length = 4 && r5.isEmpty
      | _ => false)
   | _ => false)

/-- One line matches one of the header/footer patterns of
`cleanPageHeadersFooters` (standalone number, `Page N of M`, `Confidential`,
`Draft`, `©...`, `Copyright...`, a lone `D/M/YYYY` date). -/
def lineMatchesHeaderFooter (l : List Char) : Bool :=
  matchWsNumWs l || matchPageNofM l ||
  eqCI l "Confidential".data || eqCI l "Draft".data ||
  (match l with | '©' :: _ => true | _ => false) ||
  startsWithCI "Copyright".data l || matchDateLine l

/-- `cleanPageHeadersFooters`: its anchored multiline regexes empty every
line matching a pattern.  (In JS the `\s*` of the standalone-number pattern
can additionally absorb the newlines of adjacent blank lines; that differs
only in blank-line counts, which the later whitespace collapse erases.) -/
def cleanPageHeadersFooters (l : List Char) : List Char :=
  joinLines ((splitLines l).map
    (fun line => if lineMatchesHeaderFooter line then [] else line))

def countWsIn (l : List Char) : Nat := (l.filter jsIsWs).length

def countNonWsIn (l : List Char) : Nat := (l.filter (fun c => !jsIsWs c)).length

/-- Lookahead `\s*[A-Za-z]`. -/
def afterWsLetter (l : List Char) : Bool :=
  match l.dropWhile jsIsWs with
  | c :: _ => isAsciiLetter c
  | [] => false

/-- Lookahead `\s*[a-z]`. -/
def afterWsLower (l : List Char) : Bool :=
  match l.dropWhile jsIsWs with
  | c :: _ => isAsciiLower c
  | [] => false

/-- `/[0O5]\s*[A-Za-z]/.test`. -/
def hasDigitLetterPat : List Char → Bool
  | [] => false
  | c :: rest =>
    ((c = '0' || c = 'O' || c = '5') && afterWsLetter rest) || hasDigitLetterPat rest

/-- `/[Il1]\s*[a-z]/.test`. -/
def hasIlOnePat : List Char → Bool
  | [] => false
  | c :: rest =>
    ((c = 'I' || c = 'l' || c = '1') && afterWsLower rest) || hasIlOnePat rest

/-- `fl.om` with `.` any character but a newline (the text is already
lowercased by the caller for the `i` flag). -/
def hasFlAnyOm : List Char → Bool
  | [] => false
  | f :: rest =>
    (f = 'f' && (match rest with
      | l1 :: c :: o :: m :: _ => l1 = 'l' && c ≠ '\n' && o = 'o' && m = 'm'
      | _ => false)) || hasFlAnyOm rest

/-- `TextCleaner.detectOcrIssues` (cleanText.js lines 68-87): texts shorter
than 50 characters are never flagged; the whitespace-ratio check looks at
the first 500 characters only, while the three corruption regexes are
tested against the whole string.  The JS float comparison
`spaces > chars * 0.4` coincides, over the integer ranges reachable here,
with the exact `5 * spaces > 2 * chars`. -/
def detectOcrIssues (l : List Char) : Bool :=
  if l.length < 50 then false
  else
    let sample := l.take 500
    let spaces := countWsIn sample
    let chars := countNonWsIn sample
    if 5 * spaces > 2 * chars then true
    else
      hasDigitLetterPat l || hasIlOnePat l ||
      (let low := lowerL l
       containsSub low "dassroom".data || hasFlAnyOm low ||
       containsSub low "tecknology".data)

/- ===== OCR repair sub-pipeline (cleanText.js lines 92-244) =====
   Each JS global regex replace is a left-to-right scan: matches are found
   on the original string, are non-overlapping, and scanning resumes after
   each match.  The scanners below consume a match by emitting its
   replacement and then skipping the remaining matched characters (the
   `Nat` state), which reproduces exactly that discipline. -/

/-- `([.!?])([A-Z])` → `'$1 $2'` (inside the spaced-out reconstruction). -/
def sentBoundaryPass : List Char → List Char
  | a :: b :: rest =>
    if (a = '.' || a = '!' || a = '?') && isAsciiUpper b then
      a :: ' ' :: b :: sentBoundaryPass rest
    else a :: sentBoundaryPass (b :: rest)
  | l => l

/-- `([a-z])([A-Z])` → `'$1 $2'`. -/
def camelPass : List Char → List Char
  | a :: b :: rest =>
    if isAsciiLower a && isAsciiUpper b then a :: ' ' :: b :: camelPass rest
    else a :: camelPass (b :: rest)
  | l => l

/-- `(\d)([A-Za-z])` → `'$1 $2'`. -/
def digitLetterPass : List Char → List Char
  | a :: b :: rest =>
    if isAsciiDigit a && isAsciiLetter b then a :: ' ' :: b :: digitLetterPass rest
    else a :: digitLetterPass (b :: rest)
  | l => l

/-- `([A-Za-z])(\d)` → `'$1 $2'`. -/
def letterDigitPass : List Char → List Char
  | a :: b :: rest =>
    if isAsciiLetter a && isAsciiDigit b then a :: ' ' :: b :: letterDigitPass rest
    else a :: letterDigitPass (b :: rest)
  | l => l

/-- One pass of `([a-zA-Z])(ending)([A-Z])` → `'$1$2 $3'` with the `gi`
flags (so the ending is matched case-insensitively and the trailing class
matches any ASCII letter).  The `Nat` state skips the characters of a match
already emitted. -/
def epAux (ending : List Char) : Nat → List Char → List Char
  | skip+1, _ :: rest => epAux ending skip rest
  | _+1, [] => []
  | 0, [] => []
  | 0, c :: rest =>
    if isAsciiLetter c && startsWithCI ending rest &&
       (match rest.drop ending.length with
        | d :: _ => isAsciiLetter d
        | [] => false) then
      (c :: rest.take ending.length) ++ ' ' :: (rest.drop ending.length).take 1 ++
        epAux ending (ending.length + 1) rest
    else c :: epAux ending 0 rest

def endingPass (ending : List Char) (l : List Char) : List Char := epAux ending 0 l

def wordEndings : List (List Char) :=
  ["ing".data, "ed".data, "ly".data, "tion".data, "ment".data,
   "ness".data, "ity".data, "al".data]

def isClusterPunct (c : Char) : Bool :=
  c = '.' || c = ',' || c = '!' || c = '?' || c = ';' || c = ':'

/-- `[.,!?;:]{2,}` → first character of the run. -/
def punctClusterAux : Nat → List Char → List Char
  | skip+1, _ :: rest => punctClusterAux skip rest
  | _+1, [] => []
  | 0, [] => []
  | 0, c :: rest =>
    if isClusterPunct c then
      match rest with
      | d :: _ =>
        if isClusterPunct d then
          c :: punctClusterAux (rest.takeWhile isClusterPunct).length rest
        else c :: punctClusterAux 0 rest
      | [] => [c]
    else c :: punctClusterAux 0 rest

/-- `TextCleaner.fixOcrSpacing` (cleanText.js lines 92-134): strip a
leading junk run of 5+ non-alphanumeric non-whitespace characters, then any
leading non-alphanumeric run; if whitespace exceeds 60% of the
non-whitespace count (JS float `spaceCount > nonSpaceChars * 0.6`, which
over these integer ranges coincides with the exact `5*s > 3*n`) and more
than 20 non-whitespace characters remain, drop all whitespace and reinsert
boundaries (sentence, camelCase, digit/letter, common endings); finally
collapse punctuation clusters. -/
def fixOcrSpacing (l : List Char) : List Char :=
  let junk := l.takeWhile (fun c => !isAsciiAlnum c && !jsIsWs c)
  let s1 := if junk.length ≥ 5 then l.drop junk.length else l
  let s2 := s1.dropWhile (fun c => !isAsciiAlnum c)
  let s3 :=
    if 5 * countWsIn s2 > 3 * countNonWsIn s2 ∧ countNonWsIn s2 > 20 then
      wordEndings.foldl (fun acc e => endingPass e acc)
        (letterDigitPass (digitLetterPass (camelPass (sentBoundaryPass
          (s2.filter (fun c => !jsIsWs c))))))
    else s2
  punctClusterAux 0 s3

/-- Single character replaced when the rest of the string satisfies a
lookahead (which consumes nothing). -/
def replaceCharNext (target repl : Char) (cond : List Char → Bool) :
    List Char → List Char
  | [] => []
  | c :: rest =>
    (if c = target && cond rest then repl else c) :: replaceCharNext target repl cond rest

def nextIsAsciiLetter (l : List Char) : Bool :=
  match l with
  | c :: _ => isAsciiLetter c
  | [] => false

def nextIsDigit (l : List Char) : Bool :=
  match l with
  | c :: _ => isAsciiDigit c
  | [] => false

def nextNotDigit (l : List Char) : Bool := !nextIsDigit l

/-- Case-sensitive literal replace (global). -/
def rlAux (pat rep : List Char) : Nat → List Char → List Char
  | skip+1, _ :: rest => rlAux pat rep skip rest
  | _+1, [] => []
  | 0, [] => []
  | 0, l@(c :: rest) =>
    if pat ≠ [] ∧ listStartsWith pat l = true then
      rep ++ rlAux pat rep (pat.length - 1) rest
    else c :: rlAux pat rep 0 rest

def replaceLit (pat rep l : List Char) : List Char := rlAux pat rep 0 l

/-- Case-insensitive literal replace (global). -/
def rlciAux (pat rep : List Char) : Nat → List Char → List Char
  | skip+1, _ :: rest => rlciAux pat rep skip rest
  | _+1, [] => []
  | 0, [] => []
  | 0, l@(c :: rest) =>
    if pat ≠ [] ∧ startsWithCI pat l = true then
      rep ++ rlciAux pat rep (pat.length - 1) rest
    else c :: rlciAux pat rep 0 rest

def replaceLitCI (pat rep l : List Char) : List Char := rlciAux pat rep 0 l

/-- `TextCleaner.fixOcrCharacters` (cleanText.js lines 139-172): the
replacement table applied in order. -/
def fixOcrCharacters (l : List Char) : List Char :=
  let f1 := replaceCharNext '0' 'O' nextIsAsciiLetter l
  let f2 := replaceCharNext '0' 'O' nextNotDigit f1
  let f3 := replaceCharNext '5' 'S' nextIsAsciiLetter f2
  let f4 := replaceCharNext '1' 'I' nextNotDigit f3
  let f5 := replaceCharNext 'O' '0' nextIsDigit f4
  let f6 := replaceCharNext 'S' '5' nextIsDigit f5
  let f7 := replaceCharNext 'I' '1' nextIsDigit f6
  let f8 := replaceCharNext 'l' '1' nextIsDigit f7
  let f9 := f8.map (fun c => if c = '|' then 'I' else c)
  let f10 := f9.map (fun c => if c = '@' then 'a' else c)
  let f11 := replaceLit "[rn]".data "m".data f10
  let f12 := replaceLit "cl".data "d".data f11
  let f13 := replaceLit "vv".data "w".data f12
  let f14 := replaceLitCI "fIom".data "from".data f13
  let f15 := replaceLitCI "fl-om".data "from".data f14
  f15.map (fun c => if c = '£' then 'E' else c)

def optIsWord : Option Char → Bool
  | none => false
  | some c => isWordChar c

/-- A `\b` word boundary between two (optional) characters. -/
def isBoundary (a b : Option Char) : Bool := optIsWord a != optIsWord b

/-- Prefix match of a pattern built by `new RegExp` from a word-table entry:
`.` matches any character except a newline, everything else literally but
case-insensitively (the `i` flag). -/
def patMatchDotCI : List Char → List Char → Bool
  | [], _ => true
  | _ :: _, [] => false
  | p :: ps, c :: cs =>
    (if p = '.' then c != '\n' else lowerC p == lowerC c) && patMatchDotCI ps cs

/-- `\b pat \b` matches at this position (`prev` is the previous character
of the original string, if any). -/
def wordPatAt (pat : List Char) (prev : Option Char) (l : List Char) : Bool :=
  isBoundary prev l.head? && patMatchDotCI pat l &&
  isBoundary ((l.take pat.length).getLast?) ((l.drop pat.length).head?)

/-- One pass of `new RegExp('\\b' + bad + '\\b', 'gi')` → `good`. -/
def wrAux (pat rep : List Char) : Nat → Option Char → List Char → List Char
  | skip+1, _, c :: rest => wrAux pat rep skip (some c) rest
  | _+1, _, [] => []
  | 0, _, [] => []
  | 0, prev, l@(c :: rest) =>
    if pat ≠ [] ∧ wordPatAt pat prev l = true then
      rep ++ wrAux pat rep (pat.length - 1) (some c) rest
    else c :: wrAux pat rep 0 (some c) rest

def replaceWordLit (pat rep l : List Char) : List Char := wrAux pat rep 0 none l

/-- The word-replacement table of `fixOcrWords` (cleanText.js lines
178-209), in source order, duplicates and identity entries included. -/
def wordReplacements : List (List Char × List Char) :=
  [("dassroom".data, "classroom".data),
   ("tecknology".data, "technology".data),
   ("technoIogy".data, "technology".data),
   ("univer5ity".data, "university".data),
   ("5tudent".data, "student".data),
   ("re5earch".data, "research".data),
   ("5kills".data, "skills".data),
   ("experi5e".data, "expertise".data),
   ("5uccess".data, "success".data),
   ("5ystem".data, "system".data),
   ("Etitive".data, "competitive".data),
   ("dassroom".data, "classroom".data),
   ("Jaalial".data, "Jagtial".data),
   ("Jpail".data, "Jagtial".data),
   ("Engin.;;.,;no".data, "Engineering".data),
   ("MIST£".data, "MISTE".data),
   ("Ac. In".data, "ac.in".data),
   ("jntuh. Ac. In".data, "jntuh.ac.in".data),
   ("B.Tech".data, "B.Tech".data),
   ("M.Tech".data, "M.Tech".data),
   ("Ph.D.".data, "Ph.D.".data),
   ("Dr.".data, "Dr.".data),
   ("Prof.".data, "Prof.".data),
   ("Mr.".data, "Mr.".data),
   ("Ms.".data, "Ms.".data),
   ("Mrs.".data, "Mrs.".data)]

def fixOcrWords (l : List Char) : List Char :=
  wordReplacements.foldl (fun acc pr => replaceWordLit pr.1 pr.2 acc) l

/-- Generic driver for a global regex replace: `tryAt prev l` reports a
match at the current position as `(consumed length, replacement)`; on a
match the replacement is emitted and the consumed characters are skipped,
then scanning resumes (`prev` tracks the previous character of the original
string for `\b` lookbehind). -/
def scanReplaceP (tryAt : Option Char → List Char → Option (Nat × List Char)) :
    Nat → Option Char → List Char → List Char
  | skip+1, _, c :: rest => scanReplaceP tryAt skip (some c) rest
  | _+1, _, [] => []
  | 0, _, [] => []
  | 0, prev, l@(c :: rest) =>
    match tryAt prev l with
    | some (n, emit) =>
      if n ≥ 1 then emit ++ scanReplaceP tryAt (n - 1) (some c) rest
      else c :: scanReplaceP tryAt 0 (some c) rest
    | none => c :: scanReplaceP tryAt 0 (some c) rest

/-- `(\w+)\s*@\s*(\w+)` → `'$1@$2'`. -/
def tryEmailFixAt (_ : Option Char) (l : List Char) : Option (Nat × List Char) :=
  let w1 := l.takeWhile isWordChar
  if w1.isEmpty then none
  else
    let r1 := l.drop w1.length
    let ws1 := r1.takeWhile jsIsWs
    match r1.drop ws1.length with
    | '@' :: r3 =>
      let ws2 := r3.takeWhile jsIsWs
      let r4 := r3.drop ws2.length
      let w2 := r4.takeWhile isWordChar
      if w2.isEmpty then none
      else some (w1.length + ws1.length + 1 + ws2.length + w2.length, w1 ++ '@' :: w2)
    | _ => none

/-- `(\w+)\.\s*(com|org|edu|net|in|ac)` → `'$1.$2'` (`gi`; `$2` keeps the
original input characters, and the alternatives are tried in order with no
trailing boundary). -/
def tryDomainFixAt (_ : Option Char) (l : List Char) : Option (Nat × List Char) :=
  let w1 := l.takeWhile isWordChar
  if w1.isEmpty then none
  else
    match l.drop w1.length with
    | '.' :: r2 =>
      let ws := r2.takeWhile jsIsWs
      let r3 := r2.drop ws.length
      let tryAlt := fun (alt : List Char) =>
        if startsWithCI alt r3 then
          some (w1.length + 1 + ws.length + alt.length, w1 ++ '.' :: r3.take alt.length)
        else none
      (tryAlt "com".data).orElse fun _ => (tryAlt "org".data).orElse fun _ =>
        (tryAlt "edu".data).orElse fun _ => (tryAlt "net".data).orElse fun _ =>
          (tryAlt "in".data).orElse fun _ => tryAlt "ac".data
    | _ => none

/-- `\s+(\d)` repeated `n` times, for the phone-number pattern. -/
def phoneGaps : Nat → List Char → Option (Nat × List Char)
  | 0, _ => some (0, [])
  | n+1, l =>
    let ws := l.takeWhile jsIsWs
    if ws.isEmpty then none
    else
      match l.drop ws.length with
      | d :: rest =>
        if isAsciiDigit d then
          match phoneGaps n rest with
          | some (m, ds) => some (ws.length + 1 + m, d :: ds)
          | none => none
        else none
      | [] => none

/-- `(\d)\s+(\d)\s+...` (ten whitespace-separated digits) → concatenated. -/
def tryPhoneFixAt (_ : Option Char) (l : List Char) : Option (Nat × List Char) :=
  match l with
  | d :: rest =>
    if isAsciiDigit d then
      match phoneGaps 9 rest with
      | some (m, ds) => some (1 + m, d :: ds)
      | none => none
    else none
  | [] => none

/-- `\b(\d{10})\b` → `'+91 $1'`. -/
def tryTenDigitAt (prev : Option Char) (l : List Char) : Option (Nat × List Char) :=
  let d10 := l.take 10
  if d10.length = 10 ∧ d10.all isAsciiDigit = true ∧
     isBoundary prev l.head? = true ∧
     isBoundary d10.getLast? (l.drop 10).head? = true then
    some (10, "+91 ".data ++ d10)
  else none

/-- `\b91\s+(\d{10})\b` → `'+91 $1'`. -/
def tryNinetyOneAt (prev : Option Char) (l : List Char) : Option (Nat × List Char) :=
  match l with
  | '9' :: '1' :: r1 =>
    let ws := r1.takeWhile jsIsWs
    if ws.isEmpty then none
    else
      let r2 := r1.drop ws.length
      let d10 := r2.take 10
      if d10.length = 10 ∧ d10.all isAsciiDigit = true ∧
         isBoundary prev l.head? = true ∧
         isBoundary d10.getLast? (r2.drop 10).head? = true then
        some (2 + ws.length + 10, "+91 ".data ++ d10)
      else none
  | _ => none

/-- `(\d{4})\s*[-_]\s*(\d{2})\s*[-_]\s*(\d{2})` → `'$1-$2-$3'`. -/
def tryDateFixAt (_ : Option Char) (l : List Char) : Option (Nat × List Char) :=
  let d4 := l.take 4
  if d4.length = 4 ∧ d4.all isAsciiDigit = true then
    let r1 := l.drop 4
    let ws1 := r1.takeWhile jsIsWs
    match r1.drop ws1.length with
    | s1 :: r2 =>
      if s1 = '-' ∨ s1 = '_' then
        let ws2 := r2.takeWhile jsIsWs
        let r3 := r2.drop ws2.length
        let d2a := r3.take 2
        if d2a.length = 2 ∧ d2a.all isAsciiDigit = true then
          let r4 := r3.drop 2
          let ws3 := r4.takeWhile jsIsWs
          match r4.drop ws3.length with
          | s2 :: r5 =>
            if s2 = '-' ∨ s2 = '_' then
              let ws4 := r5.takeWhile jsIsWs
              let r6 := r5.drop ws4.length
              let d2b := r6.take 2
              if d2b.length = 2 ∧ d2b.all isAsciiDigit = true then
                some (4 + ws1.length + 1 + ws2.length + 2 + ws3.length + 1 + ws4.length + 2,
                  d4 ++ '-' :: d2a ++ '-' :: d2b)
              else none
            else none
          | [] => none
        else none
      else none
    | [] => none
  else none

/-- `(\w)\s*-\s*(\w)` → `'$1$2'`. -/
def tryHyphenFixAt (_ : Option Char) (l : List Char) : Option (Nat × List Char) :=
  match l with
  | c1 :: r1 =>
    if isWordChar c1 then
      let ws1 := r1.takeWhile jsIsWs
      match r1.drop ws1.length with
      | '-' :: r2 =>
        let ws2 := r2.takeWhile jsIsWs
        match r2.drop ws2.length with
        | c2 :: _ =>
          if isWordChar c2 then
            some (1 + ws1.length + 1 + ws2.length + 1, [c1, c2])
          else none
        | [] => none
      | _ => none
    else none
  | [] => none

/-- `(\w)\s*'\s*(\w)` → `"$1'$2"`. -/
def tryApostropheFixAt (_ : Option Char) (l : List Char) : Option (Nat × List Char) :=
  match l with
  | c1 :: r1 =>
    if isWordChar c1 then
      let ws1 := r1.takeWhile jsIsWs
      match r1.drop ws1.length with
      | '\'' :: r2 =>
        let ws2 := r2.takeWhile jsIsWs
        match r2.drop ws2.length with
        | c2 :: _ =>
          if isWordChar c2 then
            some (1 + ws1.length + 1 + ws2.length + 1, [c1, '\'', c2])
          else none
        | [] => none
      | _ => none
    else none
  | [] => none

/-- `TextCleaner.fixOcrFormatting` (cleanText.js lines 223-244): the eight
replaces in source order. -/
def fixOcrFormatting (l : List Char) : List Char :=
  let g1 := scanReplaceP tryEmailFixAt 0 none l
  let g2 := scanReplaceP tryDomainFixAt 0 none g1
  let g3 := scanReplaceP tryPhoneFixAt 0 none g2
  let g4 := scanReplaceP tryTenDigitAt 0 none g3
  let g5 := scanReplaceP tryNinetyOneAt 0 none g4
  let g6 := scanReplaceP tryDateFixAt 0 none g5
  let g7 := scanReplaceP tryHyphenFixAt 0 none g6
  scanReplaceP tryApostropheFixAt 0 none g7

/-- `https?:\/\/[^\s]+` → removed. -/
def tryUrlAt (_ : Option Char) (l : List Char) : Option (Nat × List Char) :=
  if listStartsWith "http".data l then
    let k :=
      if listStartsWith "s".data (l.drop 4) ∧ listStartsWith "://".data (l.drop 5) then 5
      else 4
    if listStartsWith "://".data (l.drop k) then
      let tail := (l.drop (k + 3)).takeWhile (fun c => !jsIsWs c)
      if tail.isEmpty then none else some (k + 3 + tail.length, [])
    else none
  else none

def removeUrls (l : List Char) : List Char := scanReplaceP tryUrlAt 0 none l

/-- `'.'` with at least one character after it, anywhere in the list. -/
def dotWithTail : List Char → Bool
  | '.' :: _ :: _ => true
  | _ :: rest => dotWithTail rest
  | [] => false

/-- After an `'@'` at index ≥ 1: some later `'.'` preceded and followed by
at least one character. -/
def atThenDot : List Char → Bool
  | '@' :: rest => (match rest with | _ :: r2 => dotWithTail r2 | [] => false) || atThenDot rest
  | _ :: rest => atThenDot rest
  | [] => false

/-- `\S+@\S+\.\S+` → removed.  A maximal non-whitespace run matches (in
full, since the last `\S+` is greedy) exactly when it contains an `'@'` at
index ≥ 1 followed, at distance ≥ 2, by a `'.'` with at least one more
character after it; the backtracking search over split points reduces to
that existence check because the replacement is empty. -/
def tryEmailRemoveAt (_ : Option Char) (l : List Char) : Option (Nat × List Char) :=
  let run := l.takeWhile (fun c => !jsIsWs c)
  let ok := match run with
    | _ :: rest => atThenDot rest
    | [] => false
  if ok then some (run.length, []) else none

def removeEmails (l : List Char) : List Char := scanReplaceP tryEmailRemoveAt 0 none l

/-- The character class kept by `removeSpecialCharacters`:
`[^\w\s.,!?;:'"()\[\]{}@#$%&*+-=<>\/\\|~`]` → `' '`.  Note `+-=` inside the
class is the range from `'+'` (0x2B) to `'='` (0x3D). -/
def isKeptChar (c : Char) : Bool :=
  isWordChar c || jsIsWs c ||
  c = '.' || c = ',' || c = '!' || c = '?' || c = ';' || c = ':' ||
  c = '\'' || c = '"' || c = '(' || c = ')' || c = '[' || c = ']' ||
  c = '\x7b' || c = '\x7d' || c = '@' || c = '#' || c = '$' || c = '%' ||
  c = '&' || c = '*' || ('+' ≤ c && c ≤ '=') || c = '<' || c = '>' ||
  c = '/' || c = '\\' || c = '|' || c = '~' || c = '\x60'

def removeSpecialCharacters (l : List Char) : List Char :=
  l.map (fun c => if isKeptChar c then c else ' ')

/-- The `/[.!?]/` test on the final character. -/
def isTermPunct (c : Char) : Bool := c = '.' || c = '!' || c = '?'

/-- `TextCleaner.ensureSentenceEndings` (cleanText.js lines 302-310):
append `'.'` unless already ending in `.`, `!` or `?` (empty text kept). -/
def ensureSentenceEndings (l : List Char) : List Char :=
  match l.getLast? with
  | none => l
  | some c => if isTermPunct c then l else l ++ ['.']

/-- `\s+` → `' '` (global, all whitespace kinds). -/
def collapseAllWs : Bool → List Char → List Char
  | _, [] => []
  | inRun, c :: rest =>
    if jsIsWs c then
      if inRun then collapseAllWs true rest
      else ' ' :: collapseAllWs true rest
    else c :: collapseAllWs false rest

/-- `TextCleaner.removeDuplicateLines` (cleanText.js lines 312-332): lines
whose trimmed form is shorter than 10 characters are always kept; longer
lines are kept only on the first occurrence of their lowercased,
whitespace-collapsed form. -/
def removeDuplicateLinesAux (seen : List (List Char)) : List (List Char) → List (List Char)
  | [] => []
  | line :: rest =>
    let trimmed := jsTrim line
    if trimmed.length < 10 then line :: removeDuplicateLinesAux seen rest
    else
      let simple := collapseAllWs false (lowerL trimmed)
      if seen.contains simple then removeDuplicateLinesAux seen rest
      else line :: removeDuplicateLinesAux (simple :: seen) rest

def removeDuplicateLines (l : List Char) : List Char :=
  joinLines (removeDuplicateLinesAux [] (splitLines l))

/-- `TextCleaner.finalCleanup` (cleanText.js lines 334-339): collapse all
whitespace runs to single spaces, then strip the leading/trailing run
(`/^\s+|\s+$/g`, which is exactly a trim) and trim. -/
def finalCleanup (l : List Char) : List Char :=
  jsTrim (jsTrim (collapseAllWs false l))

/-- The option flags `clean` reads (each defaults to off). -/
structure CleanOptions where
  fixOCR : Bool := false
  removeUrls : Bool := false
  removeEmails : Bool := false
  removeSpecialChars : Bool := false
deriving DecidableEq

/-- `TextCleaner.clean(text, options)` (cleanText.js lines 12-59): basic
cleanup, then the OCR repair sub-pipeline when requested or when the
heuristic fires on the cleaned text, then the optional removals, then final
normalization.  The source's catch-all (return the input unchanged on an
internal error) has no counterpart: every phase here is total. -/
def clean (text : List Char) (options : CleanOptions) : List Char :=
  if text.isEmpty then []
  else
    let c1 := removeNullCharacters text
    let c2 := normalizeWhitespace c1
    let c3 := cleanPageHeadersFooters c2
    let c4 :=
      if options.fixOCR || detectOcrIssues c3 then
        fixOcrFormatting (fixOcrWords (fixOcrCharacters (fixOcrSpacing c3)))
      else c3
    let c5 := if options.removeUrls then removeUrls c4 else c4
    let c6 := if options.removeEmails then removeEmails c5 else c5
    let c7 := if options.removeSpecialChars then removeSpecialCharacters c6 else c6
    let c8 := ensureSentenceEndings c7
    let c9 := removeDuplicateLines c8
    finalCleanup c9

/-- Two consecutive spaces occur somewhere. -/
def hasDoubleSpace : List Char → Bool
  | [] => false
  | [_] => false
  | a :: b :: rest => (a = ' ' && b = ' ') || hasDoubleSpace (b :: rest)

def optIsSpace : Option Char → Bool
  | some c => c = ' '
  | none => false

lemma hasDoubleSpace_cons_cons (a b : Char) (r : List Char) :
    hasDoubleSpace (a :: b :: r) = ((a = ' ' && b = ' ') || hasDoubleSpace (b :: r)) := rfl

lemma hasDoubleSpace_tail {c : Char} {l : List Char}
    (h : hasDoubleSpace (c :: l) = false) : hasDoubleSpace l = false := by
  cases l with
  | nil => rfl
  | cons b r =>
    rw [hasDoubleSpace_cons_cons] at h
    exact (Bool.or_eq_false_iff.mp h).2

lemma hasDoubleSpace_append_single :
    ∀ (l : List Char) (c : Char),
      hasDoubleSpace (l ++ [c]) =
        (hasDoubleSpace l || (optIsSpace l.getLast? && c = ' ')) := by
  intro l
  induction l with
  | nil => intro c; rfl
  | cons a r ih =>
    intro c
    cases r with
    | nil => simp [hasDoubleSpace, optIsSpace]
    | cons b r2 =>
      rw [show (a :: b :: r2) ++ [c] = a :: ((b :: r2) ++ [c]) from rfl]
      rw [show ((b :: r2) ++ [c]) = b :: (r2 ++ [c]) from rfl]
      rw [hasDoubleSpace_cons_cons]
      rw [show (b :: (r2 ++ [c])) = ((b :: r2) ++ [c]) from rfl]
      rw [ih c, hasDoubleSpace_cons_cons]
      rw [show (a :: b :: r2).getLast? = (b :: r2).getLast? from List.getLast?_cons_cons]
      rw [Bool.or_assoc]

lemma hasDoubleSpace_reverse : ∀ l : List Char,
    hasDoubleSpace l.reverse = hasDoubleSpace l := by
  intro l
  induction l with
  | nil => rfl
  | cons a r ih =>
    rw [List.reverse_cons, hasDoubleSpace_append_single, ih,
      List.getLast?_reverse]
    cases r with
    | nil => rfl
    | cons b r2 =>
      rw [hasDoubleSpace_cons_cons]
      simp only [List.head?_cons, optIsSpace]
      rw [Bool.and_comm, Bool.or_comm]

lemma hasDoubleSpace_dropWhile (p : Char → Bool) :
    ∀ l : List Char, hasDoubleSpace l = false →
      hasDoubleSpace (l.dropWhile p) = false := by
  intro l
  induction l with
  | nil => intro _; rfl
  | cons a r ih =>
    intro h
    rw [List.dropWhile_cons]
    by_cases hp : p a = true
    · simp only [hp, if_true]
      exact ih (hasDoubleSpace_tail h)
    · simp only [hp, if_false]
      exact h

lemma hasDoubleSpace_jsTrim {l : List Char} (h : hasDoubleSpace l = false) :
    hasDoubleSpace (jsTrim l) = false := by
  unfold jsTrim
  rw [hasDoubleSpace_reverse]
  apply hasDoubleSpace_dropWhile
  rw [hasDoubleSpace_reverse]
  exact hasDoubleSpace_dropWhile _ _ h

lemma mem_jsTrim {c : Char} {l : List Char} (h : c ∈ jsTrim l) : c ∈ l := by
  unfold jsTrim at h
  rw [List.mem_reverse] at h
  have h2 := (List.dropWhile_sublist (l := (l.dropWhile jsIsWs).reverse) jsIsWs).mem h
  rw [List.mem_reverse] at h2
  exact (List.dropWhile_sublist jsIsWs).mem h2

lemma collapseAllWs_ws_is_space :
    ∀ (b : Bool) (l : List Char) (c : Char),
      c ∈ collapseAllWs b l → jsIsWs c = true → c = ' ' := by
  intro b l
  induction l generalizing b with
  | nil => intro c hc; cases hc
  | cons a r ih =>
    intro c hc hws
    rw [collapseAllWs] at hc
    by_cases ha : jsIsWs a = true
    · simp only [ha, if_true] at hc
      cases b with
      | true => exact ih true c hc hws
      | false =>
        simp only [Bool.false_eq_true, if_false] at hc
        rcases List.mem_cons.mp hc with h1 | h1
        · exact h1
        · exact ih true c h1 hws
    · simp only [ha, if_false] at hc
      rcases List.mem_cons.mp hc with h1 | h1
      · subst h1; exact absurd hws (by simpa using ha)
      · exact ih false c h1 hws

lemma collapseAllWs_true_head_not_space :
    ∀ l : List Char,
      optIsSpace (collapseAllWs true l).head? = false := by
  intro l
  induction l with
  | nil => rfl
  | cons a r ih =>
    rw [collapseAllWs]
    by_cases ha : jsIsWs a = true
    · simp only [ha, if_true]
      exact ih
    · simp only [ha, if_false, List.head?_cons, optIsSpace]
      simp only [jsIsWs, Bool.or_eq_true, decide_eq_true_eq] at ha
      push_neg at ha
      simp [ha.1]

lemma collapseAllWs_no_double :
    ∀ (b : Bool) (l : List Char), hasDoubleSpace (collapseAllWs b l) = false := by
  intro b l
  induction l generalizing b with
  | nil => cases b <;> rfl
  | cons a r ih =>
    rw [collapseAllWs]
    by_cases ha : jsIsWs a = true
    · simp only [ha, if_true]
      cases b with
      | true => exact ih true
      | false =>
        simp only [Bool.false_eq_true, if_false]
        have hh := collapseAllWs_true_head_not_space r
        cases hx : collapseAllWs true r with
        | nil => rfl
        | cons d rest =>
          rw [hx] at hh
          simp only [List.head?_cons, optIsSpace] at hh
          rw [hasDoubleSpace_cons_cons]
          have := ih true
          rw [hx] at this
          simp [hh, this]
    · simp only [ha, Bool.false_eq_true, if_false]
      have hns : (a = ' ') = False := by
        simp only [jsIsWs, Bool.or_eq_true, decide_eq_true_eq] at ha
        push_neg at ha
        simp [ha.1]
      cases hx : collapseAllWs false r with
      | nil => rfl
      | cons d rest =>
        rw [hasDoubleSpace_cons_cons]
        have := ih false
        rw [hx] at this
        simp [hns, this]

lemma finalCleanup_good (l : List Char) :
    (∀ c ∈ finalCleanup l, c ≠ '\n' ∧ c ≠ '\t') ∧
    hasDoubleSpace (finalCleanup l) = false := by
  unfold finalCleanup
  constructor
  · intro c hc
    have h1 : c ∈ collapseAllWs false l := mem_jsTrim (mem_jsTrim hc)
    constructor
    · intro hcn
      have := collapseAllWs_ws_is_space false l c h1 (by subst hcn; rfl)
      subst hcn
      exact absurd this (by decide)
    · intro hcn
      have := collapseAllWs_ws_is_space false l c h1 (by subst hcn; rfl)
      subst hcn
      exact absurd this (by decide)
  · exact hasDoubleSpace_jsTrim (hasDoubleSpace_jsTrim (collapseAllWs_no_double false l))

/-- Claim C10: for every input and options, the text returned by
`TextCleaner.clean` contains no newline or tab characters and no two
consecutive spaces — the final cleanup collapses every whitespace run to a
single space, so line structure never survives into the returned text. -/
theorem C10_clean_no_line_structure (s : List Char) (opts : CleanOptions) :
    (∀ c ∈ clean s opts, c ≠ '\n' ∧ c ≠ '\t') ∧
    hasDoubleSpace (clean s opts) = false := by
  unfold clean
  by_cases h : s.isEmpty
  · simp only [h, if_true]
    exact ⟨(by intro c hc; cases hc), rfl⟩
  · simp only [h, if_false]
    exact finalCleanup_good _

/-- The list alternates single non-whitespace characters and spaces
(a character, a space, a character, a space, ...). -/
def altCheck : List Char → Bool
  | [] => true
  | [c] => !jsIsWs c
  | c :: s :: rest => !jsIsWs c && s = ' ' && altCheck rest

lemma countWs_add_countNonWs : ∀ l : List Char,
    countWsIn l + countNonWsIn l = l.length := by
  intro l
  induction l with
  | nil => rfl
  | cons c rest ih =>
    unfold countWsIn countNonWsIn at ih ⊢
    rw [List.filter_cons, List.filter_cons]
    cases hc : jsIsWs c <;> simp [hc] <;> omega

lemma altCheck_count : ∀ l : List Char, altCheck l = true →
    2 * countWsIn l ≤ l.length ∧ l.length ≤ 2 * countWsIn l + 1 := by
  intro l
  induction l using altCheck.induct with
  | case1 => intro _; simp [countWsIn]
  | case2 c =>
    intro h
    rw [altCheck] at h
    unfold countWsIn
    rw [List.filter_cons]
    simp only [Bool.not_eq_true'] at h
    simp [h]
  | case3 c s rest ih =>
    intro h
    rw [altCheck] at h
    simp only [Bool.and_eq_true, Bool.not_eq_true', decide_eq_true_eq] at h
    obtain ⟨⟨hc, hs⟩, hrest⟩ := h
    have := ih hrest
    unfold countWsIn at this ⊢
    rw [List.filter_cons, List.filter_cons]
    simp only [hc, Bool.false_eq_true, if_false, hs]
    have hsp : jsIsWs ' ' = true := rfl
    simp only [hsp, if_true, List.length_cons]
    omega

/-- A short but ordinary prose paragraph avoiding the corruption patterns
(no `0`/`O`/`5` before a letter, no `I`/`l`/`1` before a lowercase letter,
none of the garbled marker words). -/
def prosePara : List Char :=
  ("a sunny day came and we went away to the sea. the water was warm and " ++
   "the wind was easy. we swam and ate and sang many songs. good times " ++
   "came our way again and again, day by day.").data

/-- Amended C7: a string whose first 500 characters alternate single
characters and spaces is always flagged (the whitespace-ratio check over
the first 500 characters fires), and a prose paragraph avoiding the
corruption patterns is not flagged; however, only the ratio check is
limited to the first 500 characters — the corruption regexes run over the
whole string (see the counterexample). -/
theorem C7_amended_detect :
    (∀ t : List Char, 500 ≤ t.length → altCheck (t.take 500) = true →
      detectOcrIssues t = true) ∧
    detectOcrIssues prosePara = false := by
  constructor
  · intro t h5 halt
    have hlen : (t.take 500).length = 500 := by rw [List.length_take]; omega
    have hcw := altCheck_count _ halt
    rw [hlen] at hcw
    have hsum := countWs_add_countNonWs (t.take 500)
    rw [hlen] at hsum
    show (if t.length < 50 then false
      else if 5 * countWsIn (t.take 500) > 2 * countNonWsIn (t.take 500) then true
      else hasDigitLetterPat t || hasIlOnePat t ||
        (containsSub (lowerL t) "dassroom".data || hasFlAnyOm (lowerL t) ||
         containsSub (lowerL t) "tecknology".data)) = true
    rw [if_neg (by omega : ¬ t.length < 50)]
    rw [if_pos (by omega : 5 * countWsIn (t.take 500) > 2 * countNonWsIn (t.take 500))]
  · decide

/-- Witness for the universal part of the amended C7 at a concrete
alternating 500-character string. -/
theorem C7_witness :
    500 ≤ ((List.replicate 250 ['a', ' ']).flatten).length ∧
    altCheck (((List.replicate 250 ['a', ' ']).flatten).take 500) = true ∧
    detectOcrIssues ((List.replicate 250 ['a', ' ']).flatten) = true :=
  ⟨by decide, by decide,
   C7_amended_detect.1 ((List.replicate 250 ['a', ' ']).flatten) (by decide) (by decide)⟩

/-- A 500-character benign text (repetitions of `"dada "`). -/
def benign500 : List Char := (List.replicate 100 "dada ".data).flatten

/-- Counterexample to C7 as stated: the decision does not only examine the
first 500 characters — appending the garbled word `tecknology` beyond
position 500 flips `detectOcrIssues` from `false` to `true` even though the
first 500 characters are unchanged, because the corruption regexes are
tested against the whole string. -/
theorem C7_counterexample :
    detectOcrIssues benign500 = false ∧
    detectOcrIssues (benign500 ++ "tecknology".data) = true ∧
    (benign500 ++ "tecknology".data).take 500 = benign500.take 500 := by
  exact ⟨by decide, by decide, List.take_append_of_le_length (by decide)⟩

def optIsTerm : Option Char → Bool
  | some c => isTermPunct c
  | none => false

/-- Text that every phase of `clean` leaves unchanged: nonempty, a single
line (no newline), no control/zero-width characters, no carriage returns or
tabs, single interior spaces only (no run of two), not starting with a
space, not matching a header/footer pattern, not flagged by the OCR
heuristic, and ending in terminal punctuation. -/
def cleanStable (l : List Char) : Prop :=
  l ≠ [] ∧
  (∀ c ∈ l, isStrippedChar c = false ∧ c ≠ '\r' ∧ c ≠ '\t' ∧ c ≠ '\n') ∧
  hasDoubleSpace l = false ∧
  optIsSpace l.head? = false ∧
  lineMatchesHeaderFooter l = false ∧
  detectOcrIssues l = false ∧
  optIsTerm l.getLast? = true

instance cleanStableDecidable (l : List Char) : Decidable (cleanStable l) := by
  unfold cleanStable
  infer_instance

lemma ws_eq_space_of (c : Char) (h : jsIsWs c = true)
    (h1 : isStrippedChar c = false) (h2 : c ≠ '\r') (h3 : c ≠ '\t')
    (h4 : c ≠ '\n') : c = ' ' := by
  have hc : c = ' ' ∨ c = '\t' ∨ c = '\n' ∨ c = '\r' ∨ c = '\x0b' ∨ c = '\x0c' := by
    simpa [jsIsWs, or_assoc] using h
  rcases hc with h5 | h5 | h5 | h5 | h5 | h5
  · exact h5
  · exact absurd h5 h3
  · exact absurd h5 h4
  · exact absurd h5 h2
  · subst h5; exact absurd h1 (by decide)
  · subst h5; exact absurd h1 (by decide)

lemma map_id_of (f : Char → Char) (l : List Char) (h : ∀ c ∈ l, f c = c) :
    l.map f = l := by
  induction l with
  | nil => rfl
  | cons c rest ih =>
    rw [List.map_cons, h c (by simp), ih (by intro x hx; exact h x (by simp [hx]))]

lemma filter_eq_self_of (p : Char → Bool) (l : List Char)
    (h : ∀ c ∈ l, p c = true) : l.filter p = l := by
  induction l with
  | nil => rfl
  | cons c rest ih =>
    rw [List.filter_cons, h c (by simp), if_pos rfl,
      ih (by intro x hx; exact h x (by simp [hx]))]

lemma dropWhile_eq_self_of_head (p : Char → Bool) (l : List Char)
    (h : ∀ c, l.head? = some c → p c = false) : l.dropWhile p = l := by
  cases l with
  | nil => rfl
  | cons c rest => simp [List.dropWhile_cons, h c rfl]

lemma jsTrim_eq_self (l : List Char)
    (h1 : ∀ c, l.head? = some c → jsIsWs c = false)
    (h2 : ∀ c, l.getLast? = some c → jsIsWs c = false) : jsTrim l = l := by
  unfold jsTrim
  rw [dropWhile_eq_self_of_head _ _ h1]
  rw [dropWhile_eq_self_of_head _ _ (by
    intro c hc
    rw [List.head?_reverse] at hc
    exact h2 c hc)]
  exact List.reverse_reverse l

lemma crlfToNl_id : ∀ l : List Char, (∀ c ∈ l, c ≠ '\r') → crlfToNl l = l := by
  intro l
  induction l with
  | nil => intro _; rfl
  | cons c rest ih =>
    intro h
    cases rest with
    | nil => rfl
    | cons d rest2 =>
      rw [show crlfToNl (c :: d :: rest2) =
        (if c = '\r' then
          (if d = '\n' then '\n' :: crlfToNl rest2 else '\r' :: crlfToNl (d :: rest2))
         else c :: crlfToNl (d :: rest2)) from rfl]
      rw [if_neg (h c (by simp))]
      rw [ih (by intro x hx; exact h x (by simp [hx]))]

lemma crToNl_id (l : List Char) (h : ∀ c ∈ l, c ≠ '\r') : crToNl l = l := by
  unfold crToNl
  apply map_id_of
  intro c hc
  rw [if_neg (h c hc)]

lemma expandTabs_id : ∀ l : List Char, (∀ c ∈ l, c ≠ '\t') → expandTabs l = l := by
  intro l
  induction l with
  | nil => intro _; rfl
  | cons c rest ih =>
    intro h
    rw [show expandTabs (c :: rest) =
      (if c = '\t' then ' ' :: ' ' :: ' ' :: ' ' :: expandTabs rest
       else c :: expandTabs rest) from rfl]
    rw [if_neg (h c (by simp))]
    rw [ih (by intro x hx; exact h x (by simp [hx]))]

lemma collapseSpaceTab_id : ∀ l : List Char, (∀ c ∈ l, c ≠ '\t') →
    hasDoubleSpace l = false →
    ∀ b, (b = true → optIsSpace l.head? = false) → collapseSpaceTab b l = l := by
  intro l
  induction l with
  | nil => intro _ _ b _; cases b <;> rfl
  | cons c rest ih =>
    intro ht hd b hb
    rw [show collapseSpaceTab b (c :: rest) =
      (if isSpaceTab c then
        (if b then collapseSpaceTab true rest else ' ' :: collapseSpaceTab true rest)
       else c :: collapseSpaceTab false rest) from rfl]
    by_cases hst : isSpaceTab c = true
    · have hc : c = ' ' := by
        have : c = ' ' ∨ c = '\t' := by simpa [isSpaceTab] using hst
        rcases this with h5 | h5
        · exact h5
        · exact absurd h5 (ht c (by simp))
      have hbf : b = false := by
        cases b with
        | false => rfl
        | true =>
          exfalso
          have := hb rfl
          rw [List.head?_cons, hc] at this
          simp [optIsSpace] at this
      subst hbf
      rw [if_pos hst]
      rw [show (if false then collapseSpaceTab true rest
        else ' ' :: collapseSpaceTab true rest) = ' ' :: collapseSpaceTab true rest from rfl]
      rw [hc]
      congr 1
      apply ih (by intro x hx; exact ht x (by simp [hx])) (hasDoubleSpace_tail hd) true
      intro _
      cases rest with
      | nil => rfl
      | cons d rest2 =>
        subst hc
        rw [hasDoubleSpace_cons_cons] at hd
        have h6 := (Bool.or_eq_false_iff.mp hd).1
        simp at h6
        simpa [optIsSpace] using h6
    · rw [if_neg hst]
      congr 1
      apply ih (by intro x hx; exact ht x (by simp [hx])) (hasDoubleSpace_tail hd) false
      intro h5
      cases h5

lemma nlWsNlAux_none_id : ∀ l : List Char, (∀ c ∈ l, c ≠ '\n') →
    nlWsNlAux none l = l := by
  intro l
  induction l with
  | nil => intro _; rfl
  | cons c rest ih =>
    intro h
    rw [show nlWsNlAux none (c :: rest) =
      (if c = '\n' then nlWsNlAux (some []) rest else c :: nlWsNlAux none rest) from rfl]
    rw [if_neg (h c (by simp))]
    rw [ih (by intro x hx; exact h x (by simp [hx]))]

lemma capNlAux_zero_id : ∀ l : List Char, (∀ c ∈ l, c ≠ '\n') →
    capNlAux 0 l = l := by
  intro l
  induction l with
  | nil => intro _; rfl
  | cons c rest ih =>
    intro h
    rw [show capNlAux 0 (c :: rest) =
      (if c = '\n' then capNlAux (0 + 1) rest
       else List.replicate (if 0 ≥ 3 then 2 else 0) '\n' ++ c :: capNlAux 0 rest) from rfl]
    rw [if_neg (h c (by simp))]
    rw [ih (by intro x hx; exact h x (by simp [hx]))]
    simp

lemma collapseAllWs_id : ∀ l : List Char, (∀ c ∈ l, jsIsWs c = true → c = ' ') →
    hasDoubleSpace l = false →
    ∀ b, (b = true → optIsSpace l.head? = false) → collapseAllWs b l = l := by
  intro l
  induction l with
  | nil => intro _ _ b _; cases b <;> rfl
  | cons c rest ih =>
    intro hw hd b hb
    rw [show collapseAllWs b (c :: rest) =
      (if jsIsWs c then
        (if b then collapseAllWs true rest else ' ' :: collapseAllWs true rest)
       else c :: collapseAllWs false rest) from rfl]
    by_cases hws : jsIsWs c = true
    · have hc : c = ' ' := hw c (by simp) hws
      have hbf : b = false := by
        cases b with
        | false => rfl
        | true =>
          exfalso
          have := hb rfl
          rw [List.head?_cons, hc] at this
          simp [optIsSpace] at this
      subst hbf
      rw [if_pos hws]
      rw [show (if false then collapseAllWs true rest
        else ' ' :: collapseAllWs true rest) = ' ' :: collapseAllWs true rest from rfl]
      rw [hc]
      congr 1
      apply ih (by intro x hx hxw; exact hw x (by simp [hx]) hxw)
        (hasDoubleSpace_tail hd) true
      intro _
      cases rest with
      | nil => rfl
      | cons d rest2 =>
        subst hc
        rw [hasDoubleSpace_cons_cons] at hd
        have h6 := (Bool.or_eq_false_iff.mp hd).1
        simp at h6
        simpa [optIsSpace] using h6
    · rw [if_neg hws]
      congr 1
      apply ih (by intro x hx hxw; exact hw x (by simp [hx]) hxw)
        (hasDoubleSpace_tail hd) false
      intro h5
      cases h5

lemma splitLines_no_nl : ∀ l : List Char, (∀ c ∈ l, c ≠ '\n') →
    splitLines l = [l] := by
  intro l
  induction l with
  | nil => intro _; rfl
  | cons c rest ih =>
    intro h
    rw [show splitLines (c :: rest) =
      (if c = '\n' then [] :: splitLines rest
       else match splitLines rest with
         | [] => [[c]]
         | line :: more => (c :: line) :: more) from rfl]
    rw [if_neg (h c (by simp))]
    rw [ih (by intro x hx; exact h x (by simp [hx]))]

lemma mem_of_head? {c : Char} {l : List Char} (h : l.head? = some c) : c ∈ l := by
  cases l with
  | nil => cases h
  | cons a rest =>
    rw [List.head?_cons] at h
    injection h with h2
    subst h2
    exact List.mem_cons_self _ _

lemma normalizeWhitespace_id (l : List Char)
    (hchar : ∀ c ∈ l, isStrippedChar c = false ∧ c ≠ '\r' ∧ c ≠ '\t' ∧ c ≠ '\n')
    (hd : hasDoubleSpace l = false)
    (hh : optIsSpace l.head? = false)
    (hterm : optIsTerm l.getLast? = true) :
    normalizeWhitespace l = l := by
  have hnr : ∀ c ∈ l, c ≠ '\r' := fun c hc => (hchar c hc).2.1
  have hnt : ∀ c ∈ l, c ≠ '\t' := fun c hc => (hchar c hc).2.2.1
  have hnn : ∀ c ∈ l, c ≠ '\n' := fun c hc => (hchar c hc).2.2.2
  unfold normalizeWhitespace
  rw [crlfToNl_id l hnr, crToNl_id l hnr, expandTabs_id l hnt]
  rw [collapseSpaceTab_id l hnt hd false (by intro h5; cases h5)]
  rw [show collapseNlWsNl l = nlWsNlAux none l from rfl, nlWsNlAux_none_id l hnn]
  rw [show capNlRuns l = capNlAux 0 l from rfl, capNlAux_zero_id l hnn]
  apply jsTrim_eq_self
  · intro c hc
    by_contra hx
    have hws : jsIsWs c = true := by simpa using hx
    have hmem : c ∈ l := mem_of_head? hc
    have hcs : c = ' ' :=
      ws_eq_space_of c hws (hchar c hmem).1 (hchar c hmem).2.1
        (hchar c hmem).2.2.1 (hchar c hmem).2.2.2
    rw [hc] at hh
    simp [optIsSpace, hcs] at hh
  · intro c hc
    rw [hc] at hterm
    simp only [optIsTerm, isTermPunct, Bool.or_eq_true, decide_eq_true_eq] at hterm
    rcases hterm with (h5 | h5) | h5 <;> subst h5 <;> rfl

lemma cleanPageHeadersFooters_id (l : List Char) (hnn : ∀ c ∈ l, c ≠ '\n')
    (hm : lineMatchesHeaderFooter l = false) :
    cleanPageHeadersFooters l = l := by
  unfold cleanPageHeadersFooters
  rw [splitLines_no_nl l hnn]
  simp only [List.map_cons, List.map_nil, hm, Bool.false_eq_true, if_false]
  rfl

lemma ensureSentenceEndings_id (l : List Char)
    (hterm : optIsTerm l.getLast? = true) : ensureSentenceEndings l = l := by
  unfold ensureSentenceEndings
  cases hx : l.getLast? with
  | none => rfl
  | some c =>
    rw [hx] at hterm
    simp only [optIsTerm] at hterm
    show (if isTermPunct c then l else l ++ ['.']) = l
    rw [if_pos hterm]

lemma removeDuplicateLines_id (l : List Char) (hnn : ∀ c ∈ l, c ≠ '\n')
    (htrim : jsTrim l = l) : removeDuplicateLines l = l := by
  unfold removeDuplicateLines
  rw [splitLines_no_nl l hnn]
  simp only [removeDuplicateLinesAux, htrim]
  by_cases h10 : l.length < 10
  · simp only [h10, if_true]
    rfl
  · simp only [h10, if_false]
    show joinLines (if ([] : List (List Char)).contains (collapseAllWs false (lowerL l))
      then removeDuplicateLinesAux [] [] else l :: removeDuplicateLinesAux
        [collapseAllWs false (lowerL l)] []) = l
    rw [if_neg (by simp)]
    rfl

/-- Counterexample to claim C6 as stated: `clean` is not idempotent.  On
the concrete input `"©a\n ©b tiny bit."` the first pass deletes the line
`"©a"` as a copyright header and collapses the rest to `"©b tiny bit."`,
which now begins with `'©'`; the second pass therefore deletes the whole
remaining line, returning the empty string. -/
theorem C6_counterexample :
    clean (clean "©a\n ©b tiny bit.".data {}) {} ≠ clean "©a\n ©b tiny bit.".data {} := by
  decide

/-- Amended C6: `clean` is the identity on text that is already stable for
every phase (nonempty single-line text with no control characters, no
carriage returns, tabs or newlines, single interior spaces only, not
starting with a space, not matching a header/footer pattern, not flagged by
`detectOcrIssues`, and ending in terminal punctuation); hence re-cleaning
such output is idempotent.  In general `clean (clean s) = clean s` fails
(see the counterexample), because a pass can produce a line that the next
pass's header removal deletes, and because `detectOcrIssues` can fire on
already-clean text. -/
theorem C6_amended_clean_fixed_point (l : List Char) (h : cleanStable l) :
    clean l {} = l := by
  obtain ⟨h0, hchar, hd, hh, hm, hdet, hterm⟩ := h
  have hnn : ∀ c ∈ l, c ≠ '\n' := fun c hc => (hchar c hc).2.2.2
  have hwsp : ∀ c ∈ l, jsIsWs c = true → c = ' ' := by
    intro c hc hws
    exact ws_eq_space_of c hws (hchar c hc).1 (hchar c hc).2.1
      (hchar c hc).2.2.1 (hchar c hc).2.2.2
  have hheadws : ∀ c, l.head? = some c → jsIsWs c = false := by
    intro c hc
    by_contra hx
    have hws : jsIsWs c = true := by simpa using hx
    have hcs := hwsp c (mem_of_head? hc) hws
    rw [hc] at hh
    simp [optIsSpace, hcs] at hh
  have hlastws : ∀ c, l.getLast? = some c → jsIsWs c = false := by
    intro c hc
    rw [hc] at hterm
    simp only [optIsTerm, isTermPunct, Bool.or_eq_true, decide_eq_true_eq] at hterm
    rcases hterm with (h5 | h5) | h5 <;> subst h5 <;> rfl
  have e1 : removeNullCharacters l = l := by
    apply filter_eq_self_of
    intro c hc
    simp [(hchar c hc).1]
  have e2 : normalizeWhitespace l = l := normalizeWhitespace_id l hchar hd hh hterm
  have e3 : cleanPageHeadersFooters l = l := cleanPageHeadersFooters_id l hnn hm
  have htrim : jsTrim l = l := jsTrim_eq_self l hheadws hlastws
  have e8 : ensureSentenceEndings l = l := ensureSentenceEndings_id l hterm
  have e9 : removeDuplicateLines l = l := removeDuplicateLines_id l hnn htrim
  have e10 : finalCleanup l = l := by
    unfold finalCleanup
    rw [collapseAllWs_id l hwsp hd false (by intro h5; cases h5), htrim, htrim]
  have hne : l.isEmpty = false := by
    cases l with
    | nil => exact absurd rfl h0
    | cons a rest => rfl
  unfold clean
  rw [hne]
  simp only [Bool.false_eq_true, if_false]
  simp only [e1, e2, e3, hdet]
  simp only [Bool.or_false, Bool.false_eq_true, if_false, e8, e9, e10]

/-- Witness for the amended C6 at a concrete stable input. -/
theorem C6_witness :
    cleanStable "Good dog.".data ∧ clean "Good dog.".data {} = "Good dog.".data :=
  ⟨by decide, C6_amended_clean_fixed_point "Good dog.".data (by decide)⟩

/- ===== Exact number arithmetic for the graph builder =====
   The JS float arithmetic reachable in services/memoryGraph.js only ever
   produces small decimal/dyadic rationals on which doubles are exact, so
   it is modelled by exact rationals.  (Mathlib's `Rat` is avoided because
   its normalization does not reduce inside the kernel; this type keeps the
   same values with a fuel-based Euclid so concrete graph computations can
   be settled by `decide`.) -/

def natGcdAux : Nat → Nat → Nat → Nat
  | 0, _, b => b
  | fuel+1, a, b => if a = 0 then b else natGcdAux fuel (b % a) a

/-- Euclid's algorithm; `a` strictly decreases each step, so fuel `a + 1`
always suffices. -/
def natGcd (a b : Nat) : Nat := natGcdAux (a + 1) a b

/-- A rational number kept in normal form (positive denominator, coprime). -/
structure JsNum where
  num : Int
  den : Nat
deriving DecidableEq

/-- Normalized fraction `n / d` (`d ≠ 0` for every use below). -/
def JsNum.mk2 (n d : Int) : JsNum :=
  let s : Int := if d < 0 then -1 else 1
  let n2 := s * n
  let d2 := (s * d).toNat
  let g := natGcd n2.natAbs d2
  if g = 0 then ⟨0, 1⟩ else ⟨n2 / (g : Int), d2 / g⟩

instance (n : Nat) : OfNat JsNum n := ⟨⟨Int.ofNat n, 1⟩⟩

instance : NatCast JsNum := ⟨fun n => ⟨Int.ofNat n, 1⟩⟩

instance : Add JsNum :=
  ⟨fun a b => JsNum.mk2 (a.num * b.den + b.num * a.den) (a.den * b.den)⟩

instance : Mul JsNum := ⟨fun a b => JsNum.mk2 (a.num * b.num) (a.den * b.den)⟩

instance : Div JsNum := ⟨fun a b => JsNum.mk2 (a.num * b.den) (a.den * b.num)⟩

instance : LE JsNum := ⟨fun a b => a.num * b.den ≤ b.num * a.den⟩

instance (a b : JsNum) : Decidable (a ≤ b) := Int.decLe _ _

/-- `Math.min`. -/
def JsNum.minJ (a b : JsNum) : JsNum := if a ≤ b then a else b

/- ===== MemoryGraph (services/memoryGraph.js) =====
   The entity-extraction and relationship-analysis cores, with the external
   collaborators (aiService, supabaseService) as parameters.  Chunks of one
   batch run concurrently in JS; the model processes them in index order,
   which the per-chunk map updates make observationally equal for the
   properties below. -/

/-- An entity as returned by `aiService.extractEntities`. -/
structure RawEntity where
  name : List Char
  type : List Char
  relevance : JsNum
deriving DecidableEq

/-- An aggregated entity in `allEntitiesMap` (memoryGraph.js lines
123-148). -/
structure AggEntity where
  name : List Char
  type : List Char
  relevance : JsNum
  count : Nat
  sources : List Nat
  first_seen_chunk : Nat
  last_seen_chunk : Nat
deriving DecidableEq

/-- `this.minEntityRelevance` (memoryGraph.js line 8). -/
def minEntityRelevance : JsNum := 5

/-- `this.minCooccurrence` (memoryGraph.js line 10). -/
def minCooccurrence : Nat := 2

/-- A JS `Map` as an insertion-ordered association list: update in place if
the key exists, else append. -/
def mapUpsert (k : List Char) (f : AggEntity → AggEntity) (v0 : AggEntity) :
    List (List Char × AggEntity) → List (List Char × AggEntity)
  | [] => [(k, v0)]
  | (k2, v) :: rest =>
    if k2 = k then (k2, f v) :: rest else (k2, v) :: mapUpsert k f v0 rest

/-- One entity folded into `allEntitiesMap` (memoryGraph.js lines 123-148):
entities below `minEntityRelevance` are discarded; the key is
`lowercased name ++ "_" ++ type`; on collision `count` increments,
`relevance` becomes the mean of the existing value and the new observation,
and the chunk index joins `sources` (a JS `Set`); the `first_seen_chunk` /
`last_seen_chunk` metadata is written only on insertion. -/
def processEntity (chunkIndex : Nat) (m : List (List Char × AggEntity))
    (e : RawEntity) : List (List Char × AggEntity) :=
  if minEntityRelevance ≤ e.relevance then
    mapUpsert (lowerL e.name ++ '_' :: e.type)
      (fun ex =>
        { ex with
          count := ex.count + 1
          relevance := (ex.relevance + e.relevance) / 2
          sources := if ex.sources.contains chunkIndex then ex.sources
                     else ex.sources ++ [chunkIndex] })
      ⟨e.name, e.type, e.relevance, 1, [chunkIndex], chunkIndex, chunkIndex⟩ m
  else m

/-- The deduplication map built by `extractEntitiesFromChunks` over the
per-chunk extraction results, in chunk order (each inner list is one
chunk's `aiService.extractEntities` output). -/
def extractEntitiesMapAux (i : Nat) :
    List (List RawEntity) → List (List Char × AggEntity) → List (List Char × AggEntity)
  | [], m => m
  | es :: rest, m => extractEntitiesMapAux (i + 1) rest (es.foldl (processEntity i) m)

def extractEntitiesMap (chunkEntities : List (List RawEntity)) :
    List (List Char × AggEntity) :=
  extractEntitiesMapAux 0 chunkEntities []

/-- `extractEntitiesFromChunks` (memoryGraph.js lines 101-186): the map's
values sorted by descending relevance and truncated to the top 50. -/
def extractEntitiesFromChunks (chunkEntities : List (List RawEntity)) :
    List AggEntity :=
  (((extractEntitiesMap chunkEntities).map Prod.snd).mergeSort
    (fun a b => decide (b.relevance ≤ a.relevance))).take 50

/-- Claim C4: two extraction results on different chunks,
`{name:"Alpha", type:"concept", relevance:8}` and
`{name:"alpha", type:"concept", relevance:6}` (both above the threshold 5),
merge into exactly one entry, keyed `"alpha_concept"`, with `count = 2` and
`relevance = 7` (the mean of 8 and 6) and sources `{0, 1}`. -/
theorem C4_entity_dedup_mean :
    extractEntitiesMap
      [[⟨"Alpha".data, "concept".data, 8⟩], [⟨"alpha".data, "concept".data, 6⟩]] =
    [("alpha_concept".data,
      ⟨"Alpha".data, "concept".data, 7, 2, [0, 1], 0, 0⟩)] := by
  decide

/-- A persisted graph node as used by `analyzeRelationships` (only the
fields it reads: database id, name, type). -/
structure GNode where
  id : Nat
  name : List Char
  type : List Char
deriving DecidableEq

/-- A value of `cooccurrenceMap` (memoryGraph.js lines 274-287). -/
structure CoEdge where
  source : Nat
  target : Nat
  weight : Nat
  chunks : List Nat
deriving DecidableEq

/-- One unordered node pair recorded into the co-occurrence map: a new
entry is appended iff neither orientation of the key is present; otherwise
the existing entry's weight is incremented and the chunk recorded. -/
def coUpdate (chunkIndex : Nat) (m : List ((Nat × Nat) × CoEdge))
    (e1 e2 : GNode) : List ((Nat × Nat) × CoEdge) :=
  let edgeKey := (e1.id, e2.id)
  let reverseKey := (e2.id, e1.id)
  if (m.lookup edgeKey).isNone ∧ (m.lookup reverseKey).isNone then
    m ++ [(edgeKey, ⟨e1.id, e2.id, 1, [chunkIndex]⟩)]
  else
    let existingKey := if (m.lookup edgeKey).isSome then edgeKey else reverseKey
    m.map (fun p =>
      if p.1 = existingKey then
        (p.1, { p.2 with weight := p.2.weight + 1, chunks := p.2.chunks ++ [chunkIndex] })
      else p)

/-- The double loop over `chunkEntities` (`i < j`) of memoryGraph.js lines
265-289. -/
def pairsFold (chunkIndex : Nat) :
    List GNode → List ((Nat × Nat) × CoEdge) → List ((Nat × Nat) × CoEdge)
  | [], m => m
  | e1 :: rest, m =>
    pairsFold chunkIndex rest (rest.foldl (fun m2 e2 => coUpdate chunkIndex m2 e1 e2) m)

/-- The nodes whose (lowercased) name occurs as a substring of the chunk's
lowercased content (memoryGraph.js lines 256-262). -/
def chunkEntitiesOf (nodes : List GNode) (content : List Char) : List GNode :=
  nodes.filter (fun n => containsSub (lowerL content) (lowerL n.name))

def cooccurrenceMapAux (nodes : List GNode) (chunkIndex : Nat) :
    List Chunk → List ((Nat × Nat) × CoEdge) → List ((Nat × Nat) × CoEdge)
  | [], m => m
  | chunk :: rest, m =>
    cooccurrenceMapAux nodes (chunkIndex + 1) rest
      (pairsFold chunkIndex (chunkEntitiesOf nodes chunk.content) m)

/-- `cooccurrenceMap` after scanning all chunks. -/
def cooccurrenceMapOf (chunks : List Chunk) (nodes : List GNode) :
    List ((Nat × Nat) × CoEdge) :=
  cooccurrenceMapAux nodes 0 chunks []

/-- `validEdges` (memoryGraph.js lines 293-294): map values with weight at
least `minCooccurrence`, in insertion order. -/
def validCoEdges (chunks : List Chunk) (nodes : List GNode) : List CoEdge :=
  ((cooccurrenceMapOf chunks nodes).map Prod.snd).filter
    (fun e => minCooccurrence ≤ e.weight)

/-- The relationship lookup table of `determineRelationship`
(memoryGraph.js lines 443-453). -/
def relationshipTable : List (List Char × List Char) :=
  [("person-person".data, "collaborates_with".data),
   ("person-organization".data, "works_at".data),
   ("organization-organization".data, "partners_with".data),
   ("concept-concept".data, "related_to".data),
   ("concept-topic".data, "belongs_to".data),
   ("topic-topic".data, "connected_to".data),
   ("location-organization".data, "located_in".data),
   ("person-concept".data, "researches".data)]

/-- `determineRelationship(node1, node2)` (memoryGraph.js lines 439-459):
look up `type1-type2`, then `type2-type1`, else `associated_with`. -/
def determineRelationship (node1 node2 : GNode) : List Char :=
  let type1 := lowerL node1.type
  let type2 := lowerL node2.type
  match List.lookup (type1 ++ '-' :: type2) relationshipTable with
  | some r => r
  | none =>
    match List.lookup (type2 ++ '-' :: type1) relationshipTable with
    | some r => r
    | none => "associated_with".data

/-- `getEdgeColor` (memoryGraph.js lines 480-495). -/
def edgeColorTable : List (List Char × List Char) :=
  [("collaborates_with".data, "#2196F3".data),
   ("works_at".data, "#4CAF50".data),
   ("partners_with".data, "#8BC34A".data),
   ("related_to".data, "#FF9800".data),
   ("belongs_to".data, "#9C27B0".data),
   ("connected_to".data, "#E91E63".data),
   ("located_in".data, "#F44336".data),
   ("researches".data, "#00BCD4".data),
   ("associated_with".data, "#795548".data)]

def getEdgeColor (relationship : List Char) : List Char :=
  match List.lookup relationship edgeColorTable with
  | some c => c
  | none => "#9E9E9E".data

/-- The record handed to `supabaseService.createGraphEdge` (its `metadata`
object is not read back by the core and is elided). -/
structure EdgeData where
  source_node : Nat
  target_node : Nat
  relationship : List Char
  weight : JsNum
deriving DecidableEq

/-- An edge object pushed into the returned `edges` array. -/
structure GraphEdge where
  id : Nat
  source : Nat
  target : Nat
  relationship : List Char
  weight : JsNum
  width : JsNum
  color : List Char
  ai_generated : Bool
deriving DecidableEq

/-- One semantic relationship parsed from the AI response. -/
structure AIRel where
  entity1 : List Char
  entity2 : List Char
  relationship : List Char
  confidence : JsNum
deriving DecidableEq

/-- `createSemanticRelationships` (memoryGraph.js lines 352-434), with the
database as an oracle (`none` means the insert returned nothing, so the
edge is skipped) and the parsed AI response as a parameter (`none` models
an unparseable or failed completion, which is discarded silently).  Only
relationships whose endpoint names match top-10 node names exactly and
whose endpoints differ are persisted, with `weight = confidence / 10`. -/
def createSemanticRelationships (dbO : EdgeData → Option Nat)
    (aiRels : Option (List AIRel)) (nodes : List GNode) : List GraphEdge :=
  let topNodes := nodes.take 10
  if topNodes.length < 2 then []
  else
    match aiRels with
    | none => []
    | some rels =>
      rels.foldl (fun edges rel =>
        match topNodes.find? (fun n => n.name == rel.entity1),
              topNodes.find? (fun n => n.name == rel.entity2) with
        | some n1, some n2 =>
          if n1.id ≠ n2.id then
            match dbO ⟨n1.id, n2.id, rel.relationship, rel.confidence / 10⟩ with
            | some eid =>
              edges ++ [⟨eid, n1.id, n2.id, rel.relationship, rel.confidence / 10,
                JsNum.minJ ((rel.confidence / 10) * 3) 4, "#9C27B0".data, true⟩]
            | none => edges
          else edges
        | _, _ => edges) []

/-- `analyzeRelationships(chunks, nodes, documentId)` (memoryGraph.js lines
237-347): count pairwise co-occurrences per chunk, keep pairs at or above
`minCooccurrence`, persist each (an endpoint missing from `nodes` would
throw inside the per-edge try/catch and is skipped, as is an edge the
database does not return), and when fewer than 5 edges result while at
least 2 nodes exist, append the AI semantic fallback edges. -/
def analyzeRelationships (dbO : EdgeData → Option Nat)
    (aiRels : Option (List AIRel)) (chunks : List Chunk) (nodes : List GNode)
    (documentId : Nat) : List GraphEdge :=
  let valid := validCoEdges chunks nodes
  let edges := valid.foldl (fun edges edgeData =>
    match nodes.find? (fun n => n.id == edgeData.source),
          nodes.find? (fun n => n.id == edgeData.target) with
    | some n1, some n2 =>
      let relationship := determineRelationship n1 n2
      match dbO ⟨edgeData.source, edgeData.target, relationship, (edgeData.weight : JsNum)⟩ with
      | some eid =>
        edges ++ [⟨eid, edgeData.source, edgeData.target, relationship,
          (edgeData.weight : JsNum), JsNum.minJ ((edgeData.weight : JsNum) * (1 / 2)) 5,
          getEdgeColor relationship, false⟩]
      | none => edges
    | _, _ => edges) []
  if edges.length < 5 ∧ 2 ≤ nodes.length then
    edges ++ createSemanticRelationships dbO aiRels nodes
  else edges

/-- The C5 scenario: nodes A, B, C; A and B co-occur in chunks 0 and 1,
B and C co-occur in chunk 2 only. -/
def c5nodes : List GNode :=
  [⟨1, "A".data, "concept".data⟩, ⟨2, "B".data, "concept".data⟩,
   ⟨3, "C".data, "concept".data⟩]

def c5chunks : List Chunk :=
  [⟨"A B".data, 0, 3, 0⟩, ⟨"A B".data, 0, 3, 1⟩, ⟨"B C".data, 0, 3, 2⟩]

/-- A database oracle that persists every edge. -/
def dbAlways : EdgeData → Option Nat := fun _ => some 0

/-- Counterexample to claim C5 as stated: in the given scenario the
co-occurrence stage yields a single edge, so (1 edge < 5, 3 nodes ≥ 2) the
AI semantic fallback runs; when the AI proposes `B – C` with confidence 8,
the resulting edge set contains a B–C edge (weight 8/10) in addition to the
A–B edge — contradicting "no A–C or B–C edge". -/
theorem C5_counterexample :
    (analyzeRelationships dbAlways
        (some [⟨"B".data, "C".data, "related".data, 8⟩])
        c5chunks c5nodes 0).map (fun e => (e.source, e.target, e.weight)) =
      [(1, 2, (2 : JsNum)), (2, 3, (8 : JsNum) / 10)] := by
  decide

/-- Amended C5: the co-occurrence stage alone produces exactly the A–B edge
with weight 2 (and source chunks 0, 1); since fewer than 5 edges result and
at least 2 nodes exist, the AI fallback then runs, so the final edge set is
the A–B edge plus whatever valid AI-proposed edges are persisted — with no
AI proposals it is exactly the A–B edge (relationship `related_to`,
weight 2), and no A–C or B–C edge. -/
theorem C5_amended_cooccurrence :
    validCoEdges c5chunks c5nodes = [⟨1, 2, 2, [0, 1]⟩] ∧
    (analyzeRelationships dbAlways none c5chunks c5nodes 0).map
        (fun e => (e.source, e.target, e.relationship, e.weight)) =
      [(1, 2, "related_to".data, (2 : JsNum))] := by
  decide

structure GraphSummary where
  document_id : Nat
  total_entities : Nat
  total_nodes : Nat
  total_edges : Nat
  density : JsNum
deriving DecidableEq

/-- The value returned by `buildGraphFromChunks`: a graph plus the optional
`summary` (absent on the early-exit empty graphs) and the optional `error`
message (present only when the catch-all fires). -/
structure GraphResult where
  nodes : List GNode
  edges : List GraphEdge
  summary : Option GraphSummary
  error : Option (List Char)
deriving DecidableEq

/-- `buildGraphFromChunks(chunks, documentId)` (memoryGraph.js lines
17-80), with the three awaited stages as oracles that may throw
(`Except.error`).  The whole body sits in one try/catch; a throw from any
stage lands in the catch, which returns the empty graph with the error
message instead of propagating, so the function is total.  Empty chunks, no
extracted entities, or no created nodes return the empty graph without an
error, exactly as in the source. -/
def buildGraphFromChunks
    (extractO : List Chunk → Except (List Char) (List AggEntity))
    (createNodesO : List AggEntity → Except (List Char) (List GNode))
    (analyzeO : List Chunk → List GNode → Except (List Char) (List GraphEdge))
    (chunks : List Chunk) (documentId : Nat) : GraphResult :=
  if chunks.length = 0 then ⟨[], [], none, none⟩
  else
    match extractO chunks with
    | .error m => ⟨[], [], none, some m⟩
    | .ok allEntities =>
      if allEntities.length = 0 then ⟨[], [], none, none⟩
      else
        match createNodesO allEntities with
        | .error m => ⟨[], [], none, some m⟩
        | .ok nodes =>
          if nodes.length = 0 then ⟨[], [], none, none⟩
          else
            match analyzeO chunks nodes with
            | .error m => ⟨[], [], none, some m⟩
            | .ok edges =>
              ⟨nodes, edges,
               some ⟨documentId, allEntities.length, nodes.length, edges.length,
                 (edges.length : JsNum) / (max 1 nodes.length : Nat)⟩,
               none⟩

/-- Claim C8: if an error escapes any stage of `buildGraphFromChunks`, the
function returns an object with empty `nodes` and `edges` arrays and an
`error` field holding the message, and never propagates an exception (the
model is a total function). -/
theorem C8_buildGraph_catches
    (extractO : List Chunk → Except (List Char) (List AggEntity))
    (createNodesO : List AggEntity → Except (List Char) (List GNode))
    (analyzeO : List Chunk → List GNode → Except (List Char) (List GraphEdge))
    (chunks : List Chunk) (documentId : Nat) (m : List Char)
    (hne : 0 < chunks.length)
    (hstage : extractO chunks = .error m ∨
      (∃ ents, extractO chunks = .ok ents ∧ 0 < ents.length ∧
        (createNodesO ents = .error m ∨
         (∃ nodes, createNodesO ents = .ok nodes ∧ 0 < nodes.length ∧
           analyzeO chunks nodes = .error m)))) :
    buildGraphFromChunks extractO createNodesO analyzeO chunks documentId =
      ⟨[], [], none, some m⟩ := by
  unfold buildGraphFromChunks
  rw [if_neg (by omega)]
  rcases hstage with h1 | ⟨ents, h1, hlen, h2⟩
  · simp only [h1]
  · simp only [h1]
    rw [if_neg (by omega)]
    rcases h2 with h2 | ⟨nodes, h2, hlen2, h3⟩
    · simp only [h2]
    · simp only [h2]
      rw [if_neg (by omega)]
      simp only [h3]

/-- Witness for C8: a concrete run where the relationship-analysis stage
throws; the result is the empty graph carrying the message. -/
theorem C8_witness :
    0 < [(⟨"x".data, 0, 1, 0⟩ : Chunk)].length ∧
    buildGraphFromChunks
      (fun _ => .ok [⟨"E".data, "concept".data, 8, 1, [0], 0, 0⟩])
      (fun _ => .ok [⟨1, "E".data, "concept".data⟩])
      (fun _ _ => .error "boom".data)
      [⟨"x".data, 0, 1, 0⟩] 7 = ⟨[], [], none, some "boom".data⟩ :=
  ⟨by decide,
   C8_buildGraph_catches _ _ _ [⟨"x".data, 0, 1, 0⟩] 7 "boom".data (by decide)
     (Or.inr ⟨[⟨"E".data, "concept".data, 8, 1, [0], 0, 0⟩], rfl, by decide,
       Or.inr ⟨[⟨1, "E".data, "concept".data⟩], rfl, by decide, rfl⟩⟩)⟩

/- ===== PDFParser (utils/fileParser/pdfParser.js) =====
   The orchestration of `parse` (lines 24-97), with the three extraction
   stages as oracles: `extractTextPDFs` and `convertPDFToImages` catch
   internally and never throw (the former returns a result, the latter an
   image list, empty on failure); `processImagesWithOCR` can throw.  The
   raw-buffer scrape `extractAnyTextFromBuffer` is likewise passed as the
   text it would return for the given buffer. -/

/-- The metadata object of a parse result (fields populated per stage;
absent JS fields are `none`). -/
structure PdfMeta where
  pages : Nat
  text_length : Nat
  method : List Char
  quality : List Char
  successful_pages : Option Nat
  note : Option (List Char)
  warning : Option (List Char)
  error : Option (List Char)
deriving DecidableEq

structure PdfResult where
  success : Bool
  text : List Char
  metadata : PdfMeta
deriving DecidableEq

/-- `getHelpMessage` (pdfParser.js lines 346-359), verbatim. -/
def getHelpMessage : List Char :=
  ("This PDF could not be processed. It may be:\n" ++
   "• Scanned/image-based\n" ++
   "• Password protected/encrypted\n" ++
   "• Corrupted or invalid\n\n" ++
   "SOLUTIONS:\n" ++
   "1. Convert to text-searchable PDF using Adobe Acrobat\n" ++
   "2. Use free online OCR: smallpdf.com/ocr-pdf\n" ++
   "3. Export as .txt file from original document\n" ++
   "4. Take screenshot and use Google Drive OCR\n\n" ++
   "For best results with MemoryGraph AI, use text-searchable documents.").data

/-- The OCR leg of `parse` inside its try block (lines 41-57): throw if no
page images were produced; propagate an OCR throw; accept an OCR result of
more than 100 characters; otherwise throw `'OCR extracted too little
text'`. -/
def ocrAttempt (convertO : List Nat) (ocrO : Except (List Char) PdfResult) :
    Except (List Char) PdfResult :=
  if convertO.length = 0 then .error "Could not convert PDF to images".data
  else
    match ocrO with
    | .error m => .error m
    | .ok r =>
      if r.success = true ∧ r.text.length > 100 then .ok r
      else .error "OCR extracted too little text".data

/-- `PDFParser.parse` (pdfParser.js lines 24-97): return the direct text
extraction when it succeeded with more than 200 characters; otherwise run
the OCR leg; any throw lands in the catch, which falls back to the
raw-buffer scrape when it yields more than 100 characters and otherwise
returns the success=true guidance result tagged `needs_conversion` with the
underlying error message.  The function is total: it never propagates an
exception. -/
def pdfParse (extractO : PdfResult) (convertO : List Nat)
    (ocrO : Except (List Char) PdfResult) (scrapeText : List Char) : PdfResult :=
  if extractO.success = true ∧ extractO.text.length > 200 then extractO
  else
    match ocrAttempt convertO ocrO with
    | .ok r => r
    | .error m =>
      if scrapeText.length > 100 then
        ⟨true, scrapeText,
         ⟨1, scrapeText.length, "buffer_fallback".data, "partial".data,
          none, none, some "Limited text extracted".data, none⟩⟩
      else
        ⟨true, getHelpMessage,
         ⟨0, 0, "failed".data, "needs_conversion".data, none, none, none, some m⟩⟩

/-- Claim C9: when direct extraction, OCR and raw-buffer scraping all fail
or yield too little text, `parse` does not throw: it returns success=true
with the fixed guidance message as text and metadata carrying the
`needs_conversion` quality marker and the underlying error message. -/
theorem C9_pdf_guidance_fallback (extractO : PdfResult) (convertO : List Nat)
    (ocrO : Except (List Char) PdfResult) (scrapeText : List Char) (m : List Char)
    (h1 : ¬ (extractO.success = true ∧ extractO.text.length > 200))
    (h2 : ocrAttempt convertO ocrO = .error m)
    (h3 : ¬ scrapeText.length > 100) :
    pdfParse extractO convertO ocrO scrapeText =
      ⟨true, getHelpMessage,
       ⟨0, 0, "failed".data, "needs_conversion".data, none, none, none, some m⟩⟩ := by
  unfold pdfParse
  rw [if_neg h1]
  simp only [h2]
  rw [if_neg h3]

/-- Witness for C9: direct extraction failed, page conversion produced no
images (so the OCR leg throws `'Could not convert PDF to images'`), and the
empty buffer scrapes to nothing. -/
theorem C9_witness :
    (¬ ((⟨false, [], ⟨0, 0, [], [], none, none, none, none⟩⟩ : PdfResult).success = true ∧
        (⟨false, [], ⟨0, 0, [], [], none, none, none, none⟩⟩ : PdfResult).text.length > 200)) ∧
    ocrAttempt [] (.error "x".data) = .error "Could not convert PDF to images".data ∧
    ¬ (([] : List Char).length > 100) ∧
    pdfParse ⟨false, [], ⟨0, 0, [], [], none, none, none, none⟩⟩ [] (.error "x".data) [] =
      ⟨true, getHelpMessage,
       ⟨0, 0, "failed".data, "needs_conversion".data, none, none, none,
        some "Could not convert PDF to images".data⟩⟩ :=
  ⟨by decide, rfl, by decide,
   C9_pdf_guidance_fallback ⟨false, [], ⟨0, 0, [], [], none, none, none, none⟩⟩ []
     (.error "x".data) [] "Could not convert PDF to images".data
     (by decide) rfl (by decide)⟩
